import Mathlib

/-!
# Hash-to-curve (simplified SWU) of `src/lib/pubkey/ec_h2c/ec_h2c.cpp`

A shallow embedding of `hash_to_base` and `hash_to_curve_swu`.

* `BigInt` values are `Int`; byte strings are `List Nat`; `size_t` is `Nat`
  reduced modulo `2 ^ 64` where the source adds.
* Thrown exceptions are the `error` side of `Except`.
* Every call of the HMAC/HKDF collaborator and every `printf` line is recorded,
  in program order, in a list of `Event`s returned next to the result.
* The collaborators that are only declared in the included headers (HMAC
  construction, HKDF extract and expand, `inverse_mod`, `ressol`) are fields of
  `Collaborators`; the theorems quantify over them.
-/

namespace Botan

/-! ## Data model -/

/-- Exceptions that the two routines can raise. -/
inductive Error where
  /-- Raised by `MessageAuthenticationCode::create_or_throw` for an unknown algorithm. -/
  | Lookup_Error
  /-- Raised by a failing `BOTAN_ASSERT_NOMSG`. -/
  | Internal_Error
  /-- Raised by the `throw Invalid_Argument` of line 67. -/
  | Invalid_Argument
  deriving DecidableEq, Repr

/-- Observable steps: calls of the hash collaborator and lines written by `printf`. -/
inductive Event where
  /-- The call `MessageAuthenticationCode::create_or_throw("HMAC(" + hash_fn + ")")`. -/
  | hmac_create (hash_fn : String)
  /-- The call `hkdf_extract.kdf(key, key_len, secret, salt, label)`. -/
  | hkdf_extract (key_len : Nat) (secret salt label : List Nat)
  /-- The call `hkdf_expand.kdf(key, key_len, secret, salt, label)`. -/
  | hkdf_expand (key_len : Nat) (secret salt label : List Nat)
  /-- The line `bad check`. -/
  | print_bad_check
  /-- The line `check ok`. -/
  | print_check_ok
  /-- The line `i give up`. -/
  | print_i_give_up
  /-- The line with the three flags `use_gx1 use_gx2 use_gx3`. -/
  | print_flags (use_gx1 use_gx2 use_gx3 : Bool)
  deriving DecidableEq, Repr

/-- The part of `EC_Group` that the routines read: `get_p`, `get_a`, `get_b`,
`get_p_bits` and the modulus of `mod_order`. -/
structure EC_Group where
  /-- The field prime, `get_p()`. -/
  p : Int
  /-- Curve coefficient, `get_a()`. -/
  a : Int
  /-- Curve coefficient, `get_b()`. -/
  b : Int
  /-- Bit length of `p`, `get_p_bits()`. -/
  p_bits : Nat
  /-- The group order, the modulus of `mod_order`. -/
  order : Int
  deriving DecidableEq, Repr

/-- An affine point as built by `group.point(x, y)`. -/
structure PointGFp where
  /-- Affine x coordinate. -/
  x : Int
  /-- Affine y coordinate. -/
  y : Int
  deriving DecidableEq, Repr

/-- The external collaborators of `ec_h2c.cpp`.  A `kdf` call is modelled by the
list of bytes it wrote; the `size_t` it returns is the length of that list. -/
structure Collaborators where
  /-- The value of `hmac->output_length()`, or `none` when `create_or_throw` throws. -/
  hmac_output_length : String → Option Nat
  /-- The call `HKDF_Extract(hmac).kdf(key, key_len, secret, salt, label)`. -/
  hkdf_extract : String → Nat → List Nat → List Nat → List Nat → List Nat
  /-- The call `HKDF_Expand(hmac).kdf(key, key_len, secret, salt, label)`. -/
  hkdf_expand : String → Nat → List Nat → List Nat → List Nat → List Nat
  /-- The function `inverse_mod(n, mod)`. -/
  inverse_mod : Int → Int → Int
  /-- The function `ressol(x, p)`. -/
  ressol : Int → Int → Int

/-! ## `Modular_Reducer`, `BigInt` and `EC_Group` helpers -/

/-- Modelled from the spec: `Modular_Reducer::reduce` is declared in
`botan/reducer.h`, which is not part of the sources; the spec describes the
reducer as the component performing arithmetic modulo the fixed prime. -/
def Modular_Reducer.reduce (p x : Int) : Int := x % p

/-- Modelled from the spec: `Modular_Reducer::multiply(x, y)`, the product taken
modulo `p` through the reducer. -/
def Modular_Reducer.multiply (p x y : Int) : Int :=
  Modular_Reducer.reduce p (x * y)

/-- Modelled from the spec: `Modular_Reducer::square(x)`, the square taken modulo
`p` through the reducer. -/
def Modular_Reducer.square (p x : Int) : Int :=
  Modular_Reducer.reduce p (x * x)

/-- Modelled from the spec: `Modular_Reducer::cube(x)`, the cube taken modulo `p`
through the reducer. -/
def Modular_Reducer.cube (p x : Int) : Int :=
  Modular_Reducer.multiply p x (Modular_Reducer.square p x)

/-- Modelled from the spec: the three-argument `Modular_Reducer::multiply(x, y, z)`,
the product of three values taken modulo `p` through the reducer. -/
def Modular_Reducer.multiply3 (p x y z : Int) : Int :=
  Modular_Reducer.multiply p x (Modular_Reducer.multiply p y z)

/-- Modelled from the spec: the constructor `BigInt(buf, length)` is declared
outside the sources; the spec says the bytes are interpreted as a big-endian
unsigned integer. -/
def BigInt.decode (buf : List Nat) : Int :=
  buf.foldl (fun acc byte => acc * 256 + (byte : Int)) 0

/-- Modelled from the spec: `BigInt::ct_cond_assign(predicate, other)` is declared
outside the sources; the spec describes it as a masked conditional overwrite:
the receiver takes the value of `other` when the predicate is set and keeps its
own otherwise. -/
def BigInt.ct_cond_assign (self : Int) (predicate : Bool) (other : Int) : Int :=
  if predicate then other else self

/-- Modelled from the spec: `EC_Group::mod_order(v)` is declared outside the
sources; the spec says the value is reduced modulo the group order. -/
def EC_Group.mod_order (group : EC_Group) (v : Int) : Int := v % group.order

/-- Modelled from the spec: `EC_Group::point(x, y)` is declared outside the
sources; the point constructor stores the two coordinates unchanged. -/
def EC_Group.point (_group : EC_Group) (x y : Int) : PointGFp := ⟨x, y⟩

/-- Width of `size_t`. -/
def SIZE_T_MOD : Nat := 2 ^ 64

/-! ## `hash_to_base` (lines 18-51) -/

/-- Line 38: the number of bytes requested from the HKDF expand step. -/
def hash_to_base_L (p_bits k : Nat) : Nat := ((p_bits + k) % SIZE_T_MOD) / 8

/-- Line 36: the array `salt` handed to the expand step. -/
def hash_to_base_salt (ctr : Nat) : List Nat := [72, 50, 67, ctr, 0]

/-- The function `hash_to_base` of lines 18-51. -/
def hash_to_base (E : Collaborators) (group : EC_Group) (hash_fn : String)
    (input domain_sep : List Nat) (ctr : Nat) (k : Nat) :
    List Event × Except Error Int :=
  match E.hmac_output_length hash_fn with
  | none => ([Event.hmac_create hash_fn], Except.error Error.Lookup_Error)
  | some output_length =>
    let prk := E.hkdf_extract hash_fn output_length input domain_sep []
    let ev1 := [Event.hmac_create hash_fn,
                Event.hkdf_extract output_length input domain_sep []]
    if prk.length ≠ output_length then
      (ev1, Except.error Error.Internal_Error)
    else
      let salt := hash_to_base_salt ctr
      let L := hash_to_base_L group.p_bits k
      let kdf_output := E.hkdf_expand hash_fn L prk salt []
      let ev2 := ev1 ++ [Event.hkdf_expand L prk salt []]
      if kdf_output.length ≠ L then
        (ev2, Except.error Error.Internal_Error)
      else
        (ev2, Except.ok (group.mod_order (BigInt.decode kdf_output)))

/-! ## `hash_to_curve_swu` (lines 55-156) -/

/-- The curve polynomial as the source evaluates it (lines 83, 101 and 106):
`mod_p.reduce(mod_p.cube(x) + mod_p.multiply(a, x) + b)`. -/
def g_of (p a b x : Int) : Int :=
  Modular_Reducer.reduce p
    (Modular_Reducer.cube p x + Modular_Reducer.multiply p a x + b)

/-- The local variables of `hash_to_curve_swu` computed in lines 72-113. -/
structure SwuLocals where
  /-- Line 72. -/
  n_b_over_a : Int
  /-- Line 77. -/
  t2 : Int
  /-- Line 78. -/
  t3 : Int
  /-- Line 79. -/
  t4 : Int
  /-- Line 80. -/
  t6 : Int
  /-- Line 83. -/
  gx1 : Int
  /-- Line 94. -/
  d1 : Int
  /-- Line 95. -/
  d2 : Int
  /-- Line 96. -/
  d3 : Int
  /-- Line 98. -/
  x2 : Int
  /-- Line 101. -/
  gx2 : Int
  /-- Line 104. -/
  x3 : Int
  /-- Line 106. -/
  gx3 : Int
  /-- Line 108. -/
  gx1_sqrt : Int
  /-- Line 109. -/
  gx2_sqrt : Int
  /-- Line 110. -/
  gx3_sqrt : Int
  /-- Line 112. -/
  check1 : Int
  /-- Line 113. -/
  check2 : Int
  deriving DecidableEq, Repr

/-- Lines 72-113 (the enabled `#else` branch), for given `t` and `u`. -/
def swu_locals (E : Collaborators) (p a b t u : Int) : SwuLocals :=
  let n_b_over_a := Modular_Reducer.multiply p (p - b) (E.inverse_mod a p)
  let t2 := Modular_Reducer.square p t
  let t3 := Modular_Reducer.multiply p t t2
  let t4 := Modular_Reducer.square p t2
  let t6 := Modular_Reducer.square p t3
  let gx1 := g_of p a b u
  let d1 := Modular_Reducer.multiply p (Modular_Reducer.square p gx1) t4
  let d2 := Modular_Reducer.multiply p gx1 t2
  let d3 := 1 + E.inverse_mod (d1 + d2) p
  let x2 := Modular_Reducer.multiply p d3 n_b_over_a
  let gx2 := g_of p a b x2
  let x3 := Modular_Reducer.multiply p (Modular_Reducer.square p gx1)
              (Modular_Reducer.multiply p t3 x2)
  let gx3 := g_of p a b x3
  let gx1_sqrt := E.ressol gx1 p
  let gx2_sqrt := E.ressol gx2 p
  let gx3_sqrt := E.ressol gx3 p
  let check1 := Modular_Reducer.square p
                  (Modular_Reducer.multiply3 p t3 (Modular_Reducer.square p gx1) gx2)
  let check2 := Modular_Reducer.multiply3 p gx1 gx2 gx3
  { n_b_over_a := n_b_over_a, t2 := t2, t3 := t3, t4 := t4, t6 := t6, gx1 := gx1,
    d1 := d1, d2 := d2, d3 := d3, x2 := x2, gx2 := gx2, x3 := x3, gx3 := gx3,
    gx1_sqrt := gx1_sqrt, gx2_sqrt := gx2_sqrt, gx3_sqrt := gx3_sqrt,
    check1 := check1, check2 := check2 }

/-- Lines 132-141: the six masked conditional assignments, starting from the
default-constructed (zero) `rx` and `ry`. -/
def ct_select (use_gx1 use_gx2 use_gx3 : Bool)
    (u gx1_sqrt x2 gx2_sqrt x3 gx3_sqrt : Int) : Int × Int :=
  let rx : Int := 0
  let ry : Int := 0
  let rx := BigInt.ct_cond_assign rx use_gx3 x3
  let ry := BigInt.ct_cond_assign ry use_gx3 gx3_sqrt
  let rx := BigInt.ct_cond_assign rx use_gx2 x2
  let ry := BigInt.ct_cond_assign ry use_gx2 gx2_sqrt
  let rx := BigInt.ct_cond_assign rx use_gx1 u
  let ry := BigInt.ct_cond_assign ry use_gx1 gx1_sqrt
  (rx, ry)

/-- Lines 144-155: the commented-out branching selection. -/
def branch_select (u gx1_sqrt x2 gx2_sqrt x3 gx3_sqrt : Int) : Int × Int :=
  if gx1_sqrt > 0 then (u, gx1_sqrt)
  else if gx2_sqrt > 0 then (x2, gx2_sqrt)
  else (x3, gx3_sqrt)

/-- Lines 119-143: the selection step on three candidates
`(u, gx1_sqrt)`, `(x2, gx2_sqrt)`, `(x3, gx3_sqrt)`. -/
def select_point (group : EC_Group)
    (u gx1_sqrt x2 gx2_sqrt x3 gx3_sqrt : Int) :
    List Event × Except Error PointGFp :=
  let ev_give_up :=
    if gx1_sqrt < 0 ∧ gx2_sqrt < 0 ∧ gx3_sqrt < 0 then [Event.print_i_give_up] else []
  let use_gx1 := decide (gx1_sqrt > 0)
  let use_gx2 := decide (gx2_sqrt > 0)
  let use_gx3 := decide (gx3_sqrt > 0)
  if ¬ (use_gx1 || use_gx2 || use_gx3) = true then
    (ev_give_up, Except.error Error.Internal_Error)
  else
    let r := ct_select use_gx1 use_gx2 use_gx3 u gx1_sqrt x2 gx2_sqrt x3 gx3_sqrt
    (ev_give_up ++ [Event.print_flags use_gx1 use_gx2 use_gx3],
      Except.ok (group.point r.1 r.2))

/-- Lines 77-143: everything after `t` and `u` have been derived. -/
def swu_map (E : Collaborators) (group : EC_Group) (t u : Int) :
    List Event × Except Error PointGFp :=
  let v := swu_locals E group.p group.a group.b t u
  let ev_check :=
    if v.check1 ≠ v.check2 then [Event.print_bad_check] else [Event.print_check_ok]
  let r := select_point group u v.gx1_sqrt v.x2 v.gx2_sqrt v.x3 v.gx3_sqrt
  (ev_check ++ r.1, r.2)

/-- The function `hash_to_curve_swu` of lines 55-156. -/
def hash_to_curve_swu (E : Collaborators) (group : EC_Group) (hash_fn : String)
    (input domain_sep : List Nat) : List Event × Except Error PointGFp :=
  if group.a = 0 ∨ group.b = 0 then
    ([], Except.error Error.Invalid_Argument)
  else
    match hash_to_base E group hash_fn input domain_sep 0 128 with
    | (ev_t, Except.error e) => (ev_t, Except.error e)
    | (ev_t, Except.ok t) =>
      match hash_to_base E group hash_fn input domain_sep 1 128 with
      | (ev_u, Except.error e) => (ev_t ++ ev_u, Except.error e)
      | (ev_u, Except.ok u) =>
        let r := swu_map E group t u
        (ev_t ++ ev_u ++ r.1, r.2)

/-! ## Reference collaborators, used to evaluate the routines on concrete inputs -/

/-- Modelled from the spec: `inverse_mod` is declared in `botan/numthry.h`, outside
the sources.  This instance returns the inverse in `[0, mod)` when there is one
and `0` otherwise. -/
def ref_inverse_mod (n mod : Int) : Int :=
  match (List.range mod.toNat).find? (fun x => decide ((n * (x : Int)) % mod = 1)) with
  | some x => (x : Int)
  | none => 0

/-- Modelled from the spec: `ressol` is declared in `botan/numthry.h`, outside the
sources.  This instance returns the least square root in `[0, p)` when there is
one and the sentinel `-1` otherwise. -/
def ref_ressol (x p : Int) : Int :=
  match (List.range p.toNat).find? (fun r => decide (((r : Int) * (r : Int)) % p = x % p)) with
  | some r => (r : Int)
  | none => -1

/-- A stand-in for HKDF that makes `hash_to_base` return chosen values: the
extract step writes `key_len` zero bytes, the expand step writes `key_len` bytes
of which the last is `t` for counter `0` and `u` otherwise. -/
def toy_collaborators (t u : Nat) : Collaborators where
  hmac_output_length := fun _ => some 32
  hkdf_extract := fun _ key_len _ _ _ => List.replicate key_len 0
  hkdf_expand := fun _ key_len _ salt _ =>
    List.replicate (key_len - 1) 0 ++ [if salt.getD 3 0 = 0 then t else u]
  inverse_mod := ref_inverse_mod
  ressol := ref_ressol

/-! ## Contracts and spec-side definitions -/

/-- The contract assumed of the modular square root `ressol` for modulus `p`: on
a value `v` in `[0, p)` it returns a root `r` in `[0, p)` with `r * r ≡ v` when
`v` is a square modulo `p`, and the sentinel `-1` otherwise. -/
def RessolContract (ressol : Int → Int → Int) (p : Int) : Prop :=
  ∀ v : Int, 0 ≤ v → v < p →
    ((∃ r : Int, r * r ≡ v [ZMOD p]) →
      0 ≤ ressol v p ∧ ressol v p < p ∧ ressol v p * ressol v p ≡ v [ZMOD p]) ∧
    ((¬ ∃ r : Int, r * r ≡ v [ZMOD p]) → ressol v p = -1)

/-- The byte count that the spec states for the expand step,
`ceil((bitlength(p) + margin) / 8)`, following the spec's words. -/
def spec_L (p_bits k : Nat) : Nat := Nat.ceil (((p_bits + k : Nat) : ℚ) / 8)


/-- The contract assumed of `inverse_mod` for modulus `p`: on a non-negative `n`
that is invertible modulo `p` it returns the inverse in `[0, p)`, and on one
that is not invertible it returns `0`. -/
def InverseContract (inverse_mod : Int → Int → Int) (p : Int) : Prop :=
  ∀ n : Int, 0 ≤ n →
    ((∃ m : Int, n * m ≡ 1 [ZMOD p]) →
      0 ≤ inverse_mod n p ∧ inverse_mod n p < p ∧ n * inverse_mod n p ≡ 1 [ZMOD p]) ∧
    ((¬ ∃ m : Int, n * m ≡ 1 [ZMOD p]) → inverse_mod n p = 0)

/-- Line 89 of the disabled (`#if 0`) branch, on the locals `t6` and `gx1`. -/
def x2_n_if0 (p : Int) (v : SwuLocals) : Int :=
  Modular_Reducer.reduce p (Modular_Reducer.multiply p v.t6 (Modular_Reducer.cube p v.gx1) - 1)

/-- Line 90 of the disabled (`#if 0`) branch, on the locals `t6`, `t2` and `gx1`. -/
def x2_d_if0 (p : Int) (v : SwuLocals) : Int :=
  Modular_Reducer.multiply p v.gx1
    (Modular_Reducer.reduce p
      (Modular_Reducer.multiply p v.t6 (Modular_Reducer.square p v.gx1) - v.t2))

/-- Line 92 of the disabled (`#if 0`) branch: the value it would give to `x2`. -/
def x2_if0 (E : Collaborators) (p : Int) (v : SwuLocals) : Int :=
  Modular_Reducer.multiply p (x2_n_if0 p v) (E.inverse_mod (x2_d_if0 p v) p)

/-- The derivation of one field element in the words of the spec: extract with
the message as input keying material and the tag as salt, a pseudorandom key of
`n` bytes; expand under that key with the five-byte label as info to `L` bytes;
read the bytes as a big-endian integer and reduce it. -/
def spec_derive_field_element (E : Collaborators) (group : EC_Group) (hash_fn : String)
    (message domain_sep : List Nat) (counter k n : Nat) : Int :=
  let prk := E.hkdf_extract hash_fn n message domain_sep []
  let info := [0x48, 0x32, 0x43, counter, 0x00]
  let out := E.hkdf_expand hash_fn (hash_to_base_L group.p_bits k) prk info []
  group.mod_order (BigInt.decode out)

/-- A stand-in for HKDF whose expand step writes one byte fewer than requested. -/
def short_expand_collaborators : Collaborators where
  hmac_output_length := fun _ => some 32
  hkdf_extract := fun _ key_len _ _ _ => List.replicate key_len 0
  hkdf_expand := fun _ key_len _ _ _ => List.replicate (key_len - 1) 0
  inverse_mod := ref_inverse_mod
  ressol := ref_ressol

theorem reduce_modEq (p x : Int) : Modular_Reducer.reduce p x ≡ x [ZMOD p] :=
  Int.mod_modEq x p

theorem multiply_modEq (p x y : Int) : Modular_Reducer.multiply p x y ≡ x * y [ZMOD p] :=
  reduce_modEq p (x * y)

theorem square_modEq (p x : Int) : Modular_Reducer.square p x ≡ x * x [ZMOD p] :=
  reduce_modEq p (x * x)

theorem cube_modEq (p x : Int) : Modular_Reducer.cube p x ≡ x ^ 3 [ZMOD p] := by
  have h1 : Modular_Reducer.cube p x ≡ x * Modular_Reducer.square p x [ZMOD p] :=
    multiply_modEq p x _
  have h2 : x * Modular_Reducer.square p x ≡ x * (x * x) [ZMOD p] :=
    Int.ModEq.mul_left x (square_modEq p x)
  have h3 : x * (x * x) = x ^ 3 := by ring
  exact h3 ▸ h1.trans h2

theorem g_of_modEq (p a b x : Int) : g_of p a b x ≡ x ^ 3 + a * x + b [ZMOD p] := by
  have h1 : g_of p a b x ≡
      Modular_Reducer.cube p x + Modular_Reducer.multiply p a x + b [ZMOD p] :=
    reduce_modEq p _
  exact h1.trans (((cube_modEq p x).add (multiply_modEq p a x)).add (Int.ModEq.refl b))

theorem g_of_nonneg (p a b x : Int) (hp : 0 < p) : 0 ≤ g_of p a b x :=
  Int.emod_nonneg _ (ne_of_gt hp)

theorem g_of_lt (p a b x : Int) (hp : 0 < p) : g_of p a b x < p :=
  Int.emod_lt_of_pos _ hp

/-! ## Shape of the results -/

theorem select_point_ok (group : EC_Group) (u s1 x2 s2 x3 s3 : Int) (P : PointGFp)
    (h : (select_point group u s1 x2 s2 x3 s3).2 = Except.ok P) :
    (0 < s1 ∧ P = ⟨u, s1⟩) ∨ (¬ 0 < s1 ∧ 0 < s2 ∧ P = ⟨x2, s2⟩) ∨
      (¬ 0 < s1 ∧ ¬ 0 < s2 ∧ 0 < s3 ∧ P = ⟨x3, s3⟩) := by
  unfold select_point at h
  by_cases h1 : 0 < s1 <;> by_cases h2 : 0 < s2 <;> by_cases h3 : 0 < s3 <;>
    simp [h1, h2, h3, ct_select, BigInt.ct_cond_assign, EC_Group.point] at h <;>
    simp [h1, h2, h3, ← h]

theorem select_point_of_pos (group : EC_Group) (u s1 x2 s2 x3 s3 : Int)
    (h : 0 < s1 ∨ 0 < s2 ∨ 0 < s3) :
    (select_point group u s1 x2 s2 x3 s3).2 =
      Except.ok (group.point (branch_select u s1 x2 s2 x3 s3).1
        (branch_select u s1 x2 s2 x3 s3).2) := by
  unfold select_point branch_select
  by_cases h1 : 0 < s1 <;> by_cases h2 : 0 < s2 <;> by_cases h3 : 0 < s3 <;>
    first
      | (simp [h1, h2, h3, ct_select, BigInt.ct_cond_assign, EC_Group.point]; done)
      | (exfalso; simp [h1, h2, h3] at h)

theorem select_point_of_nonpos (group : EC_Group) (u s1 x2 s2 x3 s3 : Int)
    (h1 : ¬ 0 < s1) (h2 : ¬ 0 < s2) (h3 : ¬ 0 < s3) :
    (select_point group u s1 x2 s2 x3 s3).2 = Except.error Error.Internal_Error := by
  unfold select_point
  simp [h1, h2, h3]

theorem hash_to_curve_swu_of_derived (E : Collaborators) (group : EC_Group)
    (hash_fn : String) (input domain_sep : List Nat) (t u : Int)
    (ha : group.a ≠ 0) (hb : group.b ≠ 0)
    (ht : (hash_to_base E group hash_fn input domain_sep 0 128).2 = Except.ok t)
    (hu : (hash_to_base E group hash_fn input domain_sep 1 128).2 = Except.ok u) :
    (hash_to_curve_swu E group hash_fn input domain_sep).2 =
      (select_point group u (swu_locals E group.p group.a group.b t u).gx1_sqrt
        (swu_locals E group.p group.a group.b t u).x2
        (swu_locals E group.p group.a group.b t u).gx2_sqrt
        (swu_locals E group.p group.a group.b t u).x3
        (swu_locals E group.p group.a group.b t u).gx3_sqrt).2 := by
  unfold hash_to_curve_swu
  rw [if_neg (by simp [ha, hb])]
  rcases h0 : hash_to_base E group hash_fn input domain_sep 0 128 with ⟨e0, r0⟩
  rcases h1 : hash_to_base E group hash_fn input domain_sep 1 128 with ⟨e1, r1⟩
  rw [h0] at ht
  rw [h1] at hu
  simp only at ht hu
  subst ht
  subst hu
  simp [swu_map]

theorem hash_to_curve_swu_ok (E : Collaborators) (group : EC_Group)
    (hash_fn : String) (input domain_sep : List Nat) (P : PointGFp)
    (h : (hash_to_curve_swu E group hash_fn input domain_sep).2 = Except.ok P) :
    group.a ≠ 0 ∧ group.b ≠ 0 ∧ ∃ t u : Int,
      (hash_to_base E group hash_fn input domain_sep 0 128).2 = Except.ok t ∧
      (hash_to_base E group hash_fn input domain_sep 1 128).2 = Except.ok u ∧
      (select_point group u (swu_locals E group.p group.a group.b t u).gx1_sqrt
        (swu_locals E group.p group.a group.b t u).x2
        (swu_locals E group.p group.a group.b t u).gx2_sqrt
        (swu_locals E group.p group.a group.b t u).x3
        (swu_locals E group.p group.a group.b t u).gx3_sqrt).2 = Except.ok P := by
  by_cases hab : group.a = 0 ∨ group.b = 0
  · simp [hash_to_curve_swu, hab] at h
  · have ha : group.a ≠ 0 := fun h0 => hab (Or.inl h0)
    have hb : group.b ≠ 0 := fun h0 => hab (Or.inr h0)
    refine ⟨ha, hb, ?_⟩
    rcases h0 : hash_to_base E group hash_fn input domain_sep 0 128 with ⟨e0, r0⟩
    rcases h1 : hash_to_base E group hash_fn input domain_sep 1 128 with ⟨e1, r1⟩
    cases r0 with
    | error e => simp [hash_to_curve_swu, hab, h0] at h
    | ok t =>
      cases r1 with
      | error e => simp [hash_to_curve_swu, hab, h0, h1] at h
      | ok u =>
        refine ⟨t, u, rfl, rfl, ?_⟩
        rw [← h]
        exact (hash_to_curve_swu_of_derived E group hash_fn input domain_sep t u ha hb
          (by rw [h0]) (by rw [h1])).symm

theorem ressol_pos_is_root (ressol : Int → Int → Int) (p v : Int)
    (hres : RessolContract ressol p) (h0 : 0 ≤ v) (hlt : v < p)
    (hpos : 0 < ressol v p) : ressol v p * ressol v p ≡ v [ZMOD p] := by
  by_cases hsq : ∃ r : Int, r * r ≡ v [ZMOD p]
  · exact ((hres v h0 hlt).1 hsq).2.2
  · have := (hres v h0 hlt).2 hsq
    omega

theorem no_square_mod_five (v : Int) (hv : v = 2 ∨ v = 3) :
    ¬ ∃ r : Int, r * r ≡ v [ZMOD 5] := by
  rintro ⟨r, hr⟩
  have h1 : r * r % 5 = v % 5 := hr
  have h2 : r * r % 5 = (r % 5) * (r % 5) % 5 := Int.mul_emod r r 5
  have h3 : 0 ≤ r % 5 := Int.emod_nonneg r (by norm_num)
  have h4 : r % 5 < 5 := Int.emod_lt_of_pos r (by norm_num)
  rw [h2] at h1
  generalize r % 5 = s at h1 h3 h4
  rcases hv with rfl | rfl <;> interval_cases s <;> omega

theorem no_square_mod_seven (v : Int) (hv : v = 3 ∨ v = 6) :
    ¬ ∃ r : Int, r * r ≡ v [ZMOD 7] := by
  rintro ⟨r, hr⟩
  have h1 : r * r % 7 = v % 7 := hr
  have h2 : r * r % 7 = (r % 7) * (r % 7) % 7 := Int.mul_emod r r 7
  have h3 : 0 ≤ r % 7 := Int.emod_nonneg r (by norm_num)
  have h4 : r % 7 < 7 := Int.emod_lt_of_pos r (by norm_num)
  rw [h2] at h1
  generalize r % 7 = s at h1 h3 h4
  rcases hv with rfl | rfl <;> interval_cases s <;> omega

theorem ref_ressol_contract_five : RessolContract ref_ressol 5 := by
  intro v h0 hlt
  interval_cases v
  · exact ⟨fun _ => by decide, fun h => absurd ⟨0, by decide⟩ h⟩
  · exact ⟨fun _ => by decide, fun h => absurd ⟨1, by decide⟩ h⟩
  · exact ⟨fun h => absurd h (no_square_mod_five 2 (Or.inl rfl)), fun _ => by decide⟩
  · exact ⟨fun h => absurd h (no_square_mod_five 3 (Or.inr rfl)), fun _ => by decide⟩
  · exact ⟨fun _ => by decide, fun h => absurd ⟨2, by decide⟩ h⟩

/-! ## The self-check identity for the third candidate of the SWU construction -/

theorem cast_reduce (n : ℕ) (x : ℤ) :
    ((Modular_Reducer.reduce (n : ℤ) x : ℤ) : ZMod n) = (x : ZMod n) :=
  ZMod.intCast_mod x n

theorem cast_multiply (n : ℕ) (x y : ℤ) :
    ((Modular_Reducer.multiply (n : ℤ) x y : ℤ) : ZMod n) = (x : ZMod n) * (y : ZMod n) := by
  unfold Modular_Reducer.multiply
  rw [cast_reduce]
  push_cast
  rfl

theorem cast_square (n : ℕ) (x : ℤ) :
    ((Modular_Reducer.square (n : ℤ) x : ℤ) : ZMod n) = (x : ZMod n) * (x : ZMod n) := by
  unfold Modular_Reducer.square
  rw [cast_reduce]
  push_cast
  rfl

theorem cast_cube (n : ℕ) (x : ℤ) :
    ((Modular_Reducer.cube (n : ℤ) x : ℤ) : ZMod n) =
      (x : ZMod n) * ((x : ZMod n) * (x : ZMod n)) := by
  unfold Modular_Reducer.cube
  rw [cast_multiply, cast_square]

theorem cast_multiply3 (n : ℕ) (x y z : ℤ) :
    ((Modular_Reducer.multiply3 (n : ℤ) x y z : ℤ) : ZMod n) =
      (x : ZMod n) * ((y : ZMod n) * (z : ZMod n)) := by
  unfold Modular_Reducer.multiply3
  rw [cast_multiply, cast_multiply]

theorem cast_g_of (n : ℕ) (a b x : ℤ) :
    ((g_of (n : ℤ) a b x : ℤ) : ZMod n) =
      (x : ZMod n) * ((x : ZMod n) * (x : ZMod n)) + (a : ZMod n) * (x : ZMod n) +
        (b : ZMod n) := by
  unfold g_of
  rw [cast_reduce]
  push_cast
  rw [cast_cube, cast_multiply]


/-- The algebra behind the self-check, in any commutative ring: `G` stands for
`g(u)`, `IA` and `ID` for the inverses of `a` and of the denominator, `X2` for
the second candidate and `X3 = t^2 * g(u) * X2` for the third. -/
theorem swu_identity_ring {R : Type} [CommRing R] (A B T G IA ID X2 GX2 X3 GX3 : R)
    (hA : A * IA = 1)
    (hD : (G * G * (T * T * (T * T)) + G * (T * T)) * ID = 1)
    (hX2 : X2 = (1 + ID) * (-B * IA))
    (hGX2 : GX2 = X2 * (X2 * X2) + A * X2 + B)
    (hX3 : X3 = T * T * (G * X2))
    (hGX3 : GX3 = X3 * (X3 * X3) + A * X3 + B) :
    T * (T * T) * (G * G * GX2) * (T * (T * T) * (G * G * GX2)) = G * (GX2 * GX3) := by
  subst hGX3 hX3 hGX2 hX2
  linear_combination
    (G * ((1 + ID) * (-B * IA) * ((1 + ID) * (-B * IA) * ((1 + ID) * (-B * IA))) +
        A * ((1 + ID) * (-B * IA)) + B) * (1 - T * T * G) * B *
      ((T * T * G) ^ 2 + T * T * G) * (1 + ID)) * hA +
    (G * ((1 + ID) * (-B * IA) * ((1 + ID) * (-B * IA) * ((1 + ID) * (-B * IA))) +
        A * ((1 + ID) * (-B * IA)) + B) * (1 - T * T * G) * B) * hD


theorem reduce_eq_of_cast_eq (n : ℕ) (x y : ℤ)
    (h : ((Modular_Reducer.reduce (n : ℤ) x : ℤ) : ZMod n) =
      ((Modular_Reducer.reduce (n : ℤ) y : ℤ) : ZMod n)) :
    Modular_Reducer.reduce (n : ℤ) x = Modular_Reducer.reduce (n : ℤ) y := by
  have h1 : Modular_Reducer.reduce (n : ℤ) x ≡ Modular_Reducer.reduce (n : ℤ) y [ZMOD n] :=
    (ZMod.intCast_eq_intCast_iff _ _ n).1 h
  unfold Modular_Reducer.reduce at h1 ⊢
  unfold Int.ModEq at h1
  rwa [Int.emod_emod_of_dvd _ (dvd_refl _), Int.emod_emod_of_dvd _ (dvd_refl _)] at h1

/-- With the third candidate taken as `t^2 * gx1 * x2` (in place of the
`gx1^2 * t^3 * x2` of line 104), the value `check1` of line 112 equals
`gx1 * gx2 * g(x3)` whenever `inverse_mod` returned inverses of `a` and of the
denominator `d1 + d2`. -/
theorem check1_eq_for_t2_gx1_x2 (E : Collaborators) (n : ℕ) (a b t u : ℤ)
    (ha : a * E.inverse_mod a n ≡ 1 [ZMOD n])
    (hd : ((swu_locals E n a b t u).d1 + (swu_locals E n a b t u).d2) *
      E.inverse_mod ((swu_locals E n a b t u).d1 + (swu_locals E n a b t u).d2) n
        ≡ 1 [ZMOD n]) :
    (swu_locals E n a b t u).check1 =
      Modular_Reducer.multiply3 n (swu_locals E n a b t u).gx1 (swu_locals E n a b t u).gx2
        (g_of n a b (Modular_Reducer.multiply3 n (swu_locals E n a b t u).t2
          (swu_locals E n a b t u).gx1 (swu_locals E n a b t u).x2)) := by
  have hA := (ZMod.intCast_eq_intCast_iff _ _ n).2 ha
  have hD := (ZMod.intCast_eq_intCast_iff _ _ n).2 hd
  have e_t2 : (swu_locals E n a b t u).t2 = Modular_Reducer.square n t := rfl
  have e_t3 : (swu_locals E n a b t u).t3 =
      Modular_Reducer.multiply n t (swu_locals E n a b t u).t2 := rfl
  have e_t4 : (swu_locals E n a b t u).t4 =
      Modular_Reducer.square n (swu_locals E n a b t u).t2 := rfl
  have e_gx1 : (swu_locals E n a b t u).gx1 = g_of n a b u := rfl
  have e_d1 : (swu_locals E n a b t u).d1 =
      Modular_Reducer.multiply n (Modular_Reducer.square n (swu_locals E n a b t u).gx1)
        (swu_locals E n a b t u).t4 := rfl
  have e_d2 : (swu_locals E n a b t u).d2 =
      Modular_Reducer.multiply n (swu_locals E n a b t u).gx1 (swu_locals E n a b t u).t2 := rfl
  have e_x2 : (swu_locals E n a b t u).x2 =
      Modular_Reducer.multiply n
        (1 + E.inverse_mod ((swu_locals E n a b t u).d1 + (swu_locals E n a b t u).d2) n)
        (Modular_Reducer.multiply n (n - b) (E.inverse_mod a n)) := rfl
  have e_gx2 : (swu_locals E n a b t u).gx2 = g_of n a b (swu_locals E n a b t u).x2 := rfl
  have e_c1 : (swu_locals E n a b t u).check1 =
      Modular_Reducer.reduce n
        (Modular_Reducer.multiply3 n (swu_locals E n a b t u).t3
            (Modular_Reducer.square n (swu_locals E n a b t u).gx1)
            (swu_locals E n a b t u).gx2 *
          Modular_Reducer.multiply3 n (swu_locals E n a b t u).t3
            (Modular_Reducer.square n (swu_locals E n a b t u).gx1)
            (swu_locals E n a b t u).gx2) := rfl
  have c_t2 : (((swu_locals E n a b t u).t2 : ℤ) : ZMod n) = (t : ZMod n) * t := by
    rw [e_t2, cast_square]
  have c_t3 : (((swu_locals E n a b t u).t3 : ℤ) : ZMod n) =
      (t : ZMod n) * ((t : ZMod n) * t) := by
    rw [e_t3, cast_multiply, c_t2]
  have c_t4 : (((swu_locals E n a b t u).t4 : ℤ) : ZMod n) =
      (t : ZMod n) * t * ((t : ZMod n) * t) := by
    rw [e_t4, cast_square, c_t2]
  have c_x2 : (((swu_locals E n a b t u).x2 : ℤ) : ZMod n) =
      (1 + ((E.inverse_mod ((swu_locals E n a b t u).d1 + (swu_locals E n a b t u).d2) n : ℤ) :
        ZMod n)) * (-(b : ZMod n) * ((E.inverse_mod a n : ℤ) : ZMod n)) := by
    rw [e_x2, cast_multiply, cast_multiply]
    push_cast
    rw [ZMod.natCast_self]
    ring
  have c_gx2 : (((swu_locals E n a b t u).gx2 : ℤ) : ZMod n) =
      ((swu_locals E n a b t u).x2 : ZMod n) *
        (((swu_locals E n a b t u).x2 : ZMod n) * ((swu_locals E n a b t u).x2 : ZMod n)) +
        (a : ZMod n) * ((swu_locals E n a b t u).x2 : ZMod n) + (b : ZMod n) := by
    rw [e_gx2, cast_g_of]
  have c_D : (((swu_locals E n a b t u).gx1 : ℤ) : ZMod n) * ((swu_locals E n a b t u).gx1 : ZMod n) *
        ((t : ZMod n) * t * ((t : ZMod n) * t)) +
        ((swu_locals E n a b t u).gx1 : ZMod n) * ((t : ZMod n) * t) =
      (((swu_locals E n a b t u).d1 + (swu_locals E n a b t u).d2 : ℤ) : ZMod n) := by
    push_cast
    rw [e_d1, e_d2, cast_multiply, cast_multiply, cast_square, c_t4, c_t2]
  rw [e_c1]
  show Modular_Reducer.reduce n _ = Modular_Reducer.reduce n _
  apply reduce_eq_of_cast_eq
  simp only [cast_reduce, Int.cast_mul, cast_multiply3, cast_multiply, cast_square,
    cast_g_of, c_t3, c_t2]
  refine swu_identity_ring (a : ZMod n) (b : ZMod n) (t : ZMod n)
    ((swu_locals E n a b t u).gx1 : ZMod n) ((E.inverse_mod a n : ℤ) : ZMod n)
    ((E.inverse_mod ((swu_locals E n a b t u).d1 + (swu_locals E n a b t u).d2) n : ℤ) : ZMod n)
    ((swu_locals E n a b t u).x2 : ZMod n) ((swu_locals E n a b t u).gx2 : ZMod n) _ _
    ?_ ?_ c_x2 c_gx2 rfl rfl
  · simpa using hA
  · rw [c_D]
    simpa using hD

/-! ## The claims -/

/-- C1: curve-equation validity.  For every positive modulus `p` (in particular
every prime `p > 3`), all curve coefficients (in particular `a`, `b` in `[1, p)`),
a `ressol` that meets its contract, and every hash identifier, message and tag:
a point `(rx, ry)` returned by `hash_to_curve_swu` satisfies
`ry ^ 2 ≡ rx ^ 3 + a * rx + b (mod p)`. -/
theorem C1_curve_equation (E : Collaborators) (group : EC_Group) (hash_fn : String)
    (input domain_sep : List Nat) (rx ry : Int)
    (hp : 0 < group.p)
    (hres : RessolContract E.ressol group.p)
    (hret : (hash_to_curve_swu E group hash_fn input domain_sep).2 =
      Except.ok (group.point rx ry)) :
    ry ^ 2 ≡ rx ^ 3 + group.a * rx + group.b [ZMOD group.p] := by
  obtain ⟨_, _, t, u, _, _, hsel⟩ :=
    hash_to_curve_swu_ok E group hash_fn input domain_sep _ hret
  have key : ∀ x : Int, 0 < E.ressol (g_of group.p group.a group.b x) group.p →
      (E.ressol (g_of group.p group.a group.b x) group.p) ^ 2 ≡
        x ^ 3 + group.a * x + group.b [ZMOD group.p] := by
    intro x hx
    have h1 := ressol_pos_is_root E.ressol group.p _ hres
      (g_of_nonneg group.p group.a group.b x hp) (g_of_lt group.p group.a group.b x hp) hx
    rw [pow_two]
    exact h1.trans (g_of_modEq group.p group.a group.b x)
  rcases select_point_ok group u _ _ _ _ _ _ hsel with ⟨h1, hP⟩ | ⟨_, h2, hP⟩ | ⟨_, _, h3, hP⟩
  · obtain ⟨hx, hy⟩ := PointGFp.mk.inj hP
    rw [hx, hy]
    exact key u h1
  · obtain ⟨hx, hy⟩ := PointGFp.mk.inj hP
    rw [hx, hy]
    exact key _ h2
  · obtain ⟨hx, hy⟩ := PointGFp.mk.inj hP
    rw [hx, hy]
    exact key _ h3

/-- Witness for C1 on the curve `y^2 = x^3 + x + 1` over the field of 5 elements
(a prime above 3, both coefficients in `[1, 5)`), with `t = u = 1`: the routine
returns `(4, 2)`, which satisfies the curve equation. -/
theorem C1_curve_equation_witness :
    Nat.Prime 5 ∧
      (hash_to_curve_swu (toy_collaborators 1 1) ⟨5, 1, 1, 3, 9⟩ "SHA-256" [1, 2] [3]).2 =
        Except.ok (EC_Group.point ⟨5, 1, 1, 3, 9⟩ 4 2) ∧
      (2 : Int) ^ 2 ≡ 4 ^ 3 + 1 * 4 + 1 [ZMOD 5] :=
  ⟨by norm_num, rfl,
    C1_curve_equation (toy_collaborators 1 1) ⟨5, 1, 1, 3, 9⟩ "SHA-256" [1, 2] [3] 4 2
      (by decide) ref_ressol_contract_five rfl⟩

/-- C2: rejection.  When `a` is zero or `b` is zero, `hash_to_curve_swu` throws
`Invalid_Argument` having made no call of the hash collaborator and printed
nothing, and so the outcome is the same for every choice of collaborators. -/
theorem C2_rejects_unsupported_curve (E : Collaborators) (group : EC_Group)
    (hash_fn : String) (input domain_sep : List Nat)
    (hab : group.a = 0 ∨ group.b = 0) :
    hash_to_curve_swu E group hash_fn input domain_sep =
        ([], Except.error Error.Invalid_Argument) ∧
      ∀ E2 : Collaborators, hash_to_curve_swu E2 group hash_fn input domain_sep =
        hash_to_curve_swu E group hash_fn input domain_sep := by
  have h : ∀ E1 : Collaborators, hash_to_curve_swu E1 group hash_fn input domain_sep =
      ([], Except.error Error.Invalid_Argument) := by
    intro E1
    unfold hash_to_curve_swu
    rw [if_pos hab]
  exact ⟨h E, fun E2 => (h E2).trans (h E).symm⟩

/-- Witness for C2: the curve with `a = 0`, `b = 7` over the field of 11 elements. -/
theorem C2_rejects_unsupported_curve_witness :
    hash_to_curve_swu (toy_collaborators 1 1) ⟨11, 0, 7, 4, 12⟩ "SHA-256" [1, 2] [3] =
      ([], Except.error Error.Invalid_Argument) :=
  (C2_rejects_unsupported_curve (toy_collaborators 1 1) ⟨11, 0, 7, 4, 12⟩ "SHA-256"
    [1, 2] [3] (Or.inl rfl)).1

/-- C3 (failing input): on the curve `y^2 = x^3 + x + 1` over the field of 5
elements with `t = 2`, `u = 4` the denominator `d1 + d2 = 2` is invertible, yet
the two check values computed by lines 112-113 are `1` and `2`, and the routine
prints `bad check`.  Line 104 gives `x3 = gx1^2 * t^3 * x2 = 3`; with the third
candidate `t^2 * gx1 * x2 = 1` in its place the product `gx1 * gx2 * g(1)` is
`1`, the value of `check1`. -/
theorem C3_self_check_differs :
    (swu_locals (toy_collaborators 2 4) 5 1 1 2 4).check1 = 1 ∧
      (swu_locals (toy_collaborators 2 4) 5 1 1 2 4).check2 = 2 ∧
      (swu_locals (toy_collaborators 2 4) 5 1 1 2 4).d1 +
        (swu_locals (toy_collaborators 2 4) 5 1 1 2 4).d2 = 2 ∧
      Event.print_bad_check ∈
        (hash_to_curve_swu (toy_collaborators 2 4) ⟨5, 1, 1, 3, 9⟩ "SHA-256" [1, 2] [3]).1 ∧
      (swu_locals (toy_collaborators 2 4) 5 1 1 2 4).x3 = 3 ∧
      Modular_Reducer.multiply3 5 (swu_locals (toy_collaborators 2 4) 5 1 1 2 4).t2
        (swu_locals (toy_collaborators 2 4) 5 1 1 2 4).gx1
        (swu_locals (toy_collaborators 2 4) 5 1 1 2 4).x2 = 1 ∧
      Modular_Reducer.multiply3 5 (swu_locals (toy_collaborators 2 4) 5 1 1 2 4).gx1
        (swu_locals (toy_collaborators 2 4) 5 1 1 2 4).gx2 (g_of 5 1 1 1) = 1 := by
  refine ⟨rfl, rfl, rfl, ?_, rfl, rfl, rfl⟩
  decide

/-- C4 (failing input): on the curve `y^2 = x^3 + x + 1` over the field of 7
elements with `t = 1`, `u = 1` the denominator `d1 + d2 = 5` is invertible, the
three values `gx1 = 3`, `gx2 = 3`, `gx3 = 6` are all non-squares, the three
flags are false and the assertion of line 129 fails.  The third candidate
`t^2 * gx1 * x2 = 2` would have had the square value `g(2) = 4`. -/
theorem C4_no_candidate_has_a_root :
    (swu_locals (toy_collaborators 1 1) 7 1 1 1 1).gx1 = 3 ∧
      (swu_locals (toy_collaborators 1 1) 7 1 1 1 1).gx2 = 3 ∧
      (swu_locals (toy_collaborators 1 1) 7 1 1 1 1).gx3 = 6 ∧
      (¬ ∃ r : Int, r * r ≡ 3 [ZMOD 7]) ∧ (¬ ∃ r : Int, r * r ≡ 6 [ZMOD 7]) ∧
      (swu_locals (toy_collaborators 1 1) 7 1 1 1 1).d1 +
        (swu_locals (toy_collaborators 1 1) 7 1 1 1 1).d2 = 5 ∧
      (hash_to_curve_swu (toy_collaborators 1 1) ⟨7, 1, 1, 3, 5⟩ "SHA-256" [1, 2] [3]).2 =
        Except.error Error.Internal_Error ∧
      Modular_Reducer.multiply3 7 (swu_locals (toy_collaborators 1 1) 7 1 1 1 1).t2
        (swu_locals (toy_collaborators 1 1) 7 1 1 1 1).gx1
        (swu_locals (toy_collaborators 1 1) 7 1 1 1 1).x2 = 2 ∧
      g_of 7 1 1 2 = 4 ∧ ref_ressol 4 7 = 2 :=
  ⟨rfl, rfl, rfl, no_square_mod_seven 3 (Or.inl rfl), no_square_mod_seven 6 (Or.inr rfl),
    rfl, rfl, rfl, rfl, rfl⟩

/-- C5: selection priority.  When at least one of the three square-root results
is positive, the chain of six masked assignments yields the pair that the
commented-out branching version yields, that pair is the candidate of lowest
index whose root is positive, and it is the point that the selection returns. -/
theorem C5_selection_priority (group : EC_Group) (u gx1_sqrt x2 gx2_sqrt x3 gx3_sqrt : Int)
    (h : gx1_sqrt > 0 ∨ gx2_sqrt > 0 ∨ gx3_sqrt > 0) :
    ct_select (decide (gx1_sqrt > 0)) (decide (gx2_sqrt > 0)) (decide (gx3_sqrt > 0))
        u gx1_sqrt x2 gx2_sqrt x3 gx3_sqrt =
      branch_select u gx1_sqrt x2 gx2_sqrt x3 gx3_sqrt ∧
    (select_point group u gx1_sqrt x2 gx2_sqrt x3 gx3_sqrt).2 =
      Except.ok (group.point (branch_select u gx1_sqrt x2 gx2_sqrt x3 gx3_sqrt).1
        (branch_select u gx1_sqrt x2 gx2_sqrt x3 gx3_sqrt).2) ∧
    (gx1_sqrt > 0 →
      branch_select u gx1_sqrt x2 gx2_sqrt x3 gx3_sqrt = (u, gx1_sqrt)) ∧
    (¬ gx1_sqrt > 0 → gx2_sqrt > 0 →
      branch_select u gx1_sqrt x2 gx2_sqrt x3 gx3_sqrt = (x2, gx2_sqrt)) ∧
    (¬ gx1_sqrt > 0 → ¬ gx2_sqrt > 0 →
      branch_select u gx1_sqrt x2 gx2_sqrt x3 gx3_sqrt = (x3, gx3_sqrt)) := by
  refine ⟨?_, select_point_of_pos group u gx1_sqrt x2 gx2_sqrt x3 gx3_sqrt h, ?_, ?_, ?_⟩
  · unfold ct_select branch_select BigInt.ct_cond_assign
    by_cases h1 : gx1_sqrt > 0 <;> by_cases h2 : gx2_sqrt > 0 <;>
      by_cases h3 : gx3_sqrt > 0 <;>
      first
        | (simp [h1, h2, h3]; done)
        | (exfalso; simp [h1, h2, h3] at h)
  · intro h1
    simp [branch_select, h1]
  · intro h1 h2
    simp [branch_select, h1, h2]
  · intro h1 h2
    simp [branch_select, h1, h2]

/-- Witness for C5: only the second candidate has a positive root. -/
theorem C5_selection_priority_witness :
    ct_select (decide ((-1 : Int) > 0)) (decide ((1 : Int) > 0)) (decide ((-1 : Int) > 0))
        1 (-1) 4 1 2 (-1) = branch_select 1 (-1) 4 1 2 (-1) ∧
      branch_select 1 (-1) 4 1 2 (-1) = (4, 1) :=
  ⟨(C5_selection_priority ⟨7, 1, 3, 3, 6⟩ 1 (-1) 4 1 2 (-1) (Or.inr (Or.inl (by decide)))).1,
    rfl⟩

/-- C6 (failing input): on the curve `y^2 = x^3 + x + 1` over the field of 7
elements with `t = 3`, `u = 2` the check values are `1` and `6`; the routine
prints `bad check` and goes on to return the point `(2, 2)`. -/
theorem C6_bad_check_still_returns_point :
    (swu_locals (toy_collaborators 3 2) 7 1 1 3 2).check1 = 1 ∧
      (swu_locals (toy_collaborators 3 2) 7 1 1 3 2).check2 = 6 ∧
      Event.print_bad_check ∈
        (hash_to_curve_swu (toy_collaborators 3 2) ⟨7, 1, 1, 3, 5⟩ "SHA-256" [1, 2] [3]).1 ∧
      (hash_to_curve_swu (toy_collaborators 3 2) ⟨7, 1, 1, 3, 5⟩ "SHA-256" [1, 2] [3]).2 =
        Except.ok ⟨2, 2⟩ := by
  refine ⟨rfl, rfl, ?_, rfl⟩
  decide

/-- C7 (failing input): on the curve `y^2 = x^3 + 3 x + 1` over the field of 7
elements with `t = 4`, `u = 1` the third candidate is `x3 = 4` with `gx3 = 0`,
whose root `0` lies in `[0, 7)`, and the other two values are non-squares.  The
give-up test of line 119 (all three results below zero) does not fire and the
commented-out branching version would return `(4, 0)`, a point of the curve,
yet the flags of lines 125-127 are all false, the assertion of line 129 raises
the internal error and no point is returned. -/
theorem C7_zero_root_is_rejected :
    (swu_locals (toy_collaborators 4 1) 7 3 1 4 1).x3 = 4 ∧
      (swu_locals (toy_collaborators 4 1) 7 3 1 4 1).gx3 = 0 ∧
      (swu_locals (toy_collaborators 4 1) 7 3 1 4 1).gx1_sqrt = -1 ∧
      (swu_locals (toy_collaborators 4 1) 7 3 1 4 1).gx2_sqrt = -1 ∧
      (swu_locals (toy_collaborators 4 1) 7 3 1 4 1).gx3_sqrt = 0 ∧
      ((0 : Int) ≤ 0 ∧ (0 : Int) < 7 ∧ (0 : Int) * 0 ≡ g_of 7 3 1 4 [ZMOD 7]) ∧
      (¬ ∃ P : PointGFp,
        (select_point ⟨7, 3, 1, 3, 12⟩ 1 (-1) 1 (-1) 4 0).2 = Except.ok P) ∧
      select_point ⟨7, 3, 1, 3, 12⟩ 1 (-1) 1 (-1) 4 0 =
        ([], Except.error Error.Internal_Error) ∧
      branch_select 1 (-1) 1 (-1) 4 0 = (4, 0) ∧
      (0 : Int) ^ 2 ≡ 4 ^ 3 + 3 * 4 + 1 [ZMOD 7] ∧
      (hash_to_curve_swu (toy_collaborators 4 1) ⟨7, 3, 1, 3, 12⟩ "SHA-256" [1, 2] [3]).2 =
        Except.error Error.Internal_Error ∧
      Event.print_i_give_up ∉
        (hash_to_curve_swu (toy_collaborators 4 1) ⟨7, 3, 1, 3, 12⟩ "SHA-256" [1, 2] [3]).1 := by
  refine ⟨rfl, rfl, rfl, rfl, rfl, ⟨by decide, by decide, by decide⟩, ?_, rfl, rfl,
    by decide, rfl, by decide⟩
  rintro ⟨P, hP⟩
  have h : (select_point ⟨7, 3, 1, 3, 12⟩ 1 (-1) 1 (-1) 4 0).2 =
      Except.error Error.Internal_Error := rfl
  rw [h] at hP
  cases hP

/-- C8: no undefined point.  On a supported curve, once `t` and `u` have been
derived, if `ressol` returns the sentinel `-1` for all three values `gx1`, `gx2`,
`gx3`, then `hash_to_curve_swu` raises the internal error of the assertion in
line 129 and returns no point. -/
theorem C8_no_undefined_point (E : Collaborators) (group : EC_Group) (hash_fn : String)
    (input domain_sep : List Nat) (t u : Int)
    (ha : group.a ≠ 0) (hb : group.b ≠ 0)
    (ht : (hash_to_base E group hash_fn input domain_sep 0 128).2 = Except.ok t)
    (hu : (hash_to_base E group hash_fn input domain_sep 1 128).2 = Except.ok u)
    (h1 : (swu_locals E group.p group.a group.b t u).gx1_sqrt = -1)
    (h2 : (swu_locals E group.p group.a group.b t u).gx2_sqrt = -1)
    (h3 : (swu_locals E group.p group.a group.b t u).gx3_sqrt = -1) :
    (hash_to_curve_swu E group hash_fn input domain_sep).2 =
        Except.error Error.Internal_Error ∧
      ∀ P : PointGFp,
        (hash_to_curve_swu E group hash_fn input domain_sep).2 ≠ Except.ok P := by
  have h : (hash_to_curve_swu E group hash_fn input domain_sep).2 =
      Except.error Error.Internal_Error := by
    rw [hash_to_curve_swu_of_derived E group hash_fn input domain_sep t u ha hb ht hu]
    apply select_point_of_nonpos <;> omega
  refine ⟨h, fun P hP => ?_⟩
  rw [h] at hP
  cases hP

/-- Witness for C8: the curve `y^2 = x^3 + x + 1` over the field of 7 elements
with `t = 1`, `u = 3`, where `ressol` returns `-1` for `gx1`, `gx2` and `gx3`. -/
theorem C8_no_undefined_point_witness :
    (hash_to_curve_swu (toy_collaborators 1 3) ⟨7, 1, 1, 3, 5⟩ "SHA-256" [1, 2] [3]).2 =
      Except.error Error.Internal_Error :=
  (C8_no_undefined_point (toy_collaborators 1 3) ⟨7, 1, 1, 3, 5⟩ "SHA-256" [1, 2] [3] 1 3
    (by decide) (by decide) rfl rfl rfl rfl rfl).1

theorem spec_L_521 : spec_L 521 128 = 82 := by
  unfold spec_L
  rw [Nat.ceil_eq_iff (by norm_num)]
  norm_num

theorem spec_L_3 : spec_L 3 128 = 17 := by
  unfold spec_L
  rw [Nat.ceil_eq_iff (by norm_num)]
  norm_num

/-- C9 (failing input): for the 521-bit prime of P-521 and the default margin
`k = 128`, line 38 yields `L = 81` where the spec's ceiling is `82`; for the
3-bit prime `5` it yields `16` where the ceiling is `17`, and `16` is the
length that `hash_to_base` passes to the expand step. -/
theorem C9_L_is_rounded_down :
    hash_to_base_L 521 128 = 81 ∧ spec_L 521 128 = 82 ∧
      hash_to_base_L 3 128 = 16 ∧ spec_L 3 128 = 17 ∧
      Event.hkdf_expand 16 (List.replicate 32 0) [72, 50, 67, 0, 0] [] ∈
        (hash_to_base (toy_collaborators 1 1) ⟨5, 1, 1, 3, 9⟩ "SHA-256" [1, 2] [3] 0 128).1 := by
  exact ⟨by decide, spec_L_521, by decide, spec_L_3, by decide⟩

/-- C10 (failing input): on the curve `y^2 = x^3 + x + 1` over the field of 5
elements, whose group has order `9`, an expand output that decodes to `7` makes
`hash_to_base` return `7`, which is not below `p = 5`; `hash_to_curve_swu` then
uses `u = 7` as first candidate and returns the point `(7, 1)`. -/
theorem C10_derived_value_not_below_p :
    (hash_to_base (toy_collaborators 1 7) ⟨5, 1, 1, 3, 9⟩ "SHA-256" [1, 2] [3] 1 128).2 =
        Except.ok 7 ∧
      ¬ (7 : Int) < (5 : Int) ∧
      (hash_to_curve_swu (toy_collaborators 1 7) ⟨5, 1, 1, 3, 9⟩ "SHA-256" [1, 2] [3]).2 =
        Except.ok ⟨7, 1⟩ :=
  ⟨rfl, by decide, rfl⟩

/-! ## The reference inverse meets the contract -/

theorem mem_range_cast (p x : Int) :
    (x ∈ (do let a ← List.range p.toNat; pure (a : Int) : List Int)) ↔ 0 ≤ x ∧ x < p := by
  simp only [List.bind_eq_flatMap, List.mem_flatMap, List.mem_range, List.pure_def,
    List.mem_singleton]
  constructor
  · rintro ⟨a, ha, rfl⟩
    omega
  · rintro ⟨h0, hlt⟩
    exact ⟨x.toNat, by omega, by omega⟩

theorem ref_inverse_mod_contract (p : Int) (hp : 1 < p) :
    InverseContract ref_inverse_mod p := by
  intro n _
  have h1 : (1 : Int) % p = 1 := Int.emod_eq_of_lt (by omega) hp
  unfold ref_inverse_mod
  cases h : List.find? (fun x => decide (n * x % p = 1))
      (do let a ← List.range p.toNat; pure (a : Int) : List Int) with
  | none =>
    refine ⟨fun hex => ?_, fun _ => rfl⟩
    exfalso
    obtain ⟨m, hm⟩ := hex
    rw [List.find?_eq_none] at h
    have hm0 : 0 ≤ m % p := Int.emod_nonneg m (by omega)
    have hmlt : m % p < p := Int.emod_lt_of_pos m (by omega)
    apply h (m % p) ((mem_range_cast p (m % p)).2 ⟨hm0, hmlt⟩)
    rw [decide_eq_true_eq]
    have h2 : n * (m % p) % p = n * m % p := by
      rw [Int.mul_emod, Int.emod_emod_of_dvd _ (dvd_refl p), ← Int.mul_emod]
    rw [h2]
    have h3 : n * m % p = 1 % p := hm
    rw [h3, h1]
  | some x =>
    have hx := List.find?_some h
    have hmem := (mem_range_cast p x).1 (List.mem_of_find?_eq_some h)
    rw [decide_eq_true_eq] at hx
    have hxm : n * x ≡ 1 [ZMOD p] := by
      unfold Int.ModEq
      rw [hx, h1]
    exact ⟨fun _ => ⟨hmem.1, hmem.2, hxm⟩, fun hno => absurd ⟨x, hxm⟩ hno⟩

/-! ## The locals of `hash_to_curve_swu` in the ring of integers modulo `n` -/

theorem invertible_of_lt_prime (p a : Int) (hprime : Nat.Prime p.toNat)
    (ha : 1 ≤ a ∧ a < p) : ∃ m : Int, a * m ≡ 1 [ZMOD p] := by
  have hcop : Nat.Coprime a.toNat p.toNat :=
    (Nat.coprime_of_lt_prime (by omega) (by omega) hprime).symm
  obtain ⟨y, hy⟩ := Int.mod_coprime hcop
  rw [Int.toNat_of_nonneg (by omega), Int.toNat_of_nonneg (by omega)] at hy
  exact ⟨y, hy⟩

theorem swu_den_nonneg (E : Collaborators) (p a b t u : Int) (hp : 0 < p) :
    0 ≤ (swu_locals E p a b t u).d1 + (swu_locals E p a b t u).d2 := by
  have h1 : 0 ≤ (swu_locals E p a b t u).d1 := Int.emod_nonneg _ (ne_of_gt hp)
  have h2 : 0 ≤ (swu_locals E p a b t u).d2 := Int.emod_nonneg _ (ne_of_gt hp)
  omega

theorem cast_swu_t2 (E : Collaborators) (n : ℕ) (a b t u : ℤ) :
    (((swu_locals E n a b t u).t2 : ℤ) : ZMod n) = (t : ZMod n) * t :=
  cast_square n t

theorem cast_swu_t3 (E : Collaborators) (n : ℕ) (a b t u : ℤ) :
    (((swu_locals E n a b t u).t3 : ℤ) : ZMod n) = (t : ZMod n) * ((t : ZMod n) * t) := by
  have e : (swu_locals E n a b t u).t3 =
      Modular_Reducer.multiply n t (swu_locals E n a b t u).t2 := rfl
  rw [e, cast_multiply, cast_swu_t2]

theorem cast_swu_t4 (E : Collaborators) (n : ℕ) (a b t u : ℤ) :
    (((swu_locals E n a b t u).t4 : ℤ) : ZMod n) =
      (t : ZMod n) * t * ((t : ZMod n) * t) := by
  have e : (swu_locals E n a b t u).t4 =
      Modular_Reducer.square n (swu_locals E n a b t u).t2 := rfl
  rw [e, cast_square, cast_swu_t2]

theorem cast_swu_t6 (E : Collaborators) (n : ℕ) (a b t u : ℤ) :
    (((swu_locals E n a b t u).t6 : ℤ) : ZMod n) =
      (t : ZMod n) * ((t : ZMod n) * t) * ((t : ZMod n) * ((t : ZMod n) * t)) := by
  have e : (swu_locals E n a b t u).t6 =
      Modular_Reducer.square n (swu_locals E n a b t u).t3 := rfl
  rw [e, cast_square, cast_swu_t3]

theorem cast_swu_den (E : Collaborators) (n : ℕ) (a b t u : ℤ) :
    (((swu_locals E n a b t u).d1 + (swu_locals E n a b t u).d2 : ℤ) : ZMod n) =
      ((g_of n a b u : ℤ) : ZMod n) * ((g_of n a b u : ℤ) : ZMod n) *
          ((t : ZMod n) * t * ((t : ZMod n) * t)) +
        ((g_of n a b u : ℤ) : ZMod n) * ((t : ZMod n) * t) := by
  have e1 : (swu_locals E n a b t u).d1 =
      Modular_Reducer.multiply n (Modular_Reducer.square n (g_of n a b u))
        (swu_locals E n a b t u).t4 := rfl
  have e2 : (swu_locals E n a b t u).d2 =
      Modular_Reducer.multiply n (g_of n a b u) (swu_locals E n a b t u).t2 := rfl
  push_cast
  rw [e1, e2, cast_multiply, cast_multiply, cast_square, cast_swu_t4, cast_swu_t2]

theorem cast_swu_n_b_over_a (E : Collaborators) (n : ℕ) (a b t u : ℤ) :
    (((swu_locals E n a b t u).n_b_over_a : ℤ) : ZMod n) =
      -(b : ZMod n) * ((E.inverse_mod a n : ℤ) : ZMod n) := by
  have e : (swu_locals E n a b t u).n_b_over_a =
      Modular_Reducer.multiply n (n - b) (E.inverse_mod a n) := rfl
  rw [e, cast_multiply]
  push_cast
  rw [ZMod.natCast_self]
  ring

theorem cast_swu_x2 (E : Collaborators) (n : ℕ) (a b t u : ℤ) :
    (((swu_locals E n a b t u).x2 : ℤ) : ZMod n) =
      (1 + ((E.inverse_mod ((swu_locals E n a b t u).d1 + (swu_locals E n a b t u).d2) n : ℤ) :
        ZMod n)) * (-(b : ZMod n) * ((E.inverse_mod a n : ℤ) : ZMod n)) := by
  have e : (swu_locals E n a b t u).x2 =
      Modular_Reducer.multiply n
        (1 + E.inverse_mod ((swu_locals E n a b t u).d1 + (swu_locals E n a b t u).d2) n)
        (swu_locals E n a b t u).n_b_over_a := rfl
  rw [e, cast_multiply, cast_swu_n_b_over_a]
  push_cast
  rfl

theorem reduce_eq_emod_of_modEq (p x y : Int) (h : x ≡ y [ZMOD p]) :
    Modular_Reducer.reduce p x = y % p := h

/-- The value `x2` of line 98 solves `a * x2 ≡ (p - b) * (1 + Dinv)` for every
inverse `Dinv` of a value congruent to the denominator `d1 + d2`. -/
theorem swu_x2_formula (E : Collaborators) (n : ℕ) (a b t u D Dinv : ℤ)
    (ha : a * E.inverse_mod a n ≡ 1 [ZMOD n])
    (hd : ((swu_locals E n a b t u).d1 + (swu_locals E n a b t u).d2) *
      E.inverse_mod ((swu_locals E n a b t u).d1 + (swu_locals E n a b t u).d2) n
        ≡ 1 [ZMOD n])
    (hD : D ≡ (swu_locals E n a b t u).d1 + (swu_locals E n a b t u).d2 [ZMOD n])
    (hDinv : D * Dinv ≡ 1 [ZMOD n]) :
    a * (swu_locals E n a b t u).x2 ≡ (n - b) * (1 + Dinv) [ZMOD n] := by
  have hA := (ZMod.intCast_eq_intCast_iff _ _ n).2 ha
  have hd1 := (ZMod.intCast_eq_intCast_iff _ _ n).2 hd
  have hD1 := (ZMod.intCast_eq_intCast_iff _ _ n).2 hD
  have hDinv1 := (ZMod.intCast_eq_intCast_iff _ _ n).2 hDinv
  apply (ZMod.intCast_eq_intCast_iff _ _ n).1
  rw [Int.cast_mul, cast_swu_x2]
  rw [Int.cast_mul] at hA hd1 hDinv1
  rw [hD1] at hDinv1
  rw [Int.cast_one] at hA hd1 hDinv1
  push_cast
  rw [ZMod.natCast_self]
  generalize ((E.inverse_mod ((swu_locals E n a b t u).d1 + (swu_locals E n a b t u).d2) n : ℤ) :
    ZMod n) = ID at *
  generalize (((swu_locals E n a b t u).d1 + (swu_locals E n a b t u).d2 : ℤ) : ZMod n) = DD at *
  linear_combination (-(b : ZMod n) * (1 + ID)) * hA +
    (-(b : ZMod n)) * ((-ID) * hDinv1 + (Dinv : ZMod n) * hd1)

theorem swu_den_modEq (E : Collaborators) (n : ℕ) (a b t u : ℤ) :
    t ^ 4 * g_of n a b u ^ 2 + t ^ 2 * g_of n a b u ≡
      (swu_locals E n a b t u).d1 + (swu_locals E n a b t u).d2 [ZMOD n] := by
  apply (ZMod.intCast_eq_intCast_iff _ _ n).1
  rw [cast_swu_den]
  push_cast
  ring

theorem swu_den_inverse (E : Collaborators) (n : ℕ) (a b t u Dinv : ℤ) (hn : 0 < (n : ℤ))
    (hinv : InverseContract E.inverse_mod n)
    (hD : (t ^ 4 * g_of n a b u ^ 2 + t ^ 2 * g_of n a b u) * Dinv ≡ 1 [ZMOD n]) :
    ((swu_locals E n a b t u).d1 + (swu_locals E n a b t u).d2) *
      E.inverse_mod ((swu_locals E n a b t u).d1 + (swu_locals E n a b t u).d2) n
        ≡ 1 [ZMOD n] := by
  have hex : ∃ m : ℤ, ((swu_locals E n a b t u).d1 + (swu_locals E n a b t u).d2) * m
      ≡ 1 [ZMOD n] :=
    ⟨Dinv, ((swu_den_modEq E n a b t u).symm.mul_right Dinv).trans hD⟩
  exact ((hinv _ (swu_den_nonneg E n a b t u hn)).1 hex).2.2

theorem eq_of_modEq_of_range (p x y : Int) (h : x ≡ y [ZMOD p])
    (hx : 0 ≤ x ∧ x < p) (hy : 0 ≤ y ∧ y < p) : x = y := by
  have h1 : x % p = y % p := h
  rwa [Int.emod_eq_of_lt hx.1 hx.2, Int.emod_eq_of_lt hy.1 hy.2] at h1

/-- C11: candidate 2.  For a prime `p`, a coefficient `a` in `[1, p)`, an
`inverse_mod` that meets its contract and `t`, `u` whose denominator
`D = t^4 * g(u)^2 + t^2 * g(u)` has an inverse `Dinv` modulo `p`: the value `x2`
of line 98 satisfies `a * x2 ≡ (p - b) * (1 + Dinv) (mod p)`, lies in `[0, p)`
and is the only such value, and `gx2` of line 101 is `x2^3 + a * x2 + b mod p`. -/
theorem C11_candidate2_formula (E : Collaborators) (p a b t u Dinv : Int)
    (hprime : Nat.Prime p.toNat) (ha : 1 ≤ a ∧ a < p)
    (hinv : InverseContract E.inverse_mod p)
    (hD : (t ^ 4 * g_of p a b u ^ 2 + t ^ 2 * g_of p a b u) * Dinv ≡ 1 [ZMOD p]) :
    a * (swu_locals E p a b t u).x2 ≡ (p - b) * (1 + Dinv) [ZMOD p] ∧
      (0 ≤ (swu_locals E p a b t u).x2 ∧ (swu_locals E p a b t u).x2 < p) ∧
      (∀ y : Int, 0 ≤ y → y < p → a * y ≡ (p - b) * (1 + Dinv) [ZMOD p] →
        y = (swu_locals E p a b t u).x2) ∧
      (swu_locals E p a b t u).gx2 =
        ((swu_locals E p a b t u).x2 ^ 3 + a * (swu_locals E p a b t u).x2 + b) % p := by
  have hp : 0 < p := by
    have := hprime.two_le
    omega
  obtain ⟨n, rfl⟩ : ∃ n : ℕ, p = (n : ℤ) := ⟨p.toNat, (Int.toNat_of_nonneg hp.le).symm⟩
  have hAinv : a * E.inverse_mod a n ≡ 1 [ZMOD n] :=
    ((hinv a (by omega)).1 (invertible_of_lt_prime n a hprime ha)).2.2
  have hd := swu_den_inverse E n a b t u Dinv hp hinv hD
  have hx2 := swu_x2_formula E n a b t u _ Dinv hAinv hd (swu_den_modEq E n a b t u) hD
  have hrange : 0 ≤ (swu_locals E n a b t u).x2 ∧ (swu_locals E n a b t u).x2 < n :=
    ⟨Int.emod_nonneg _ (ne_of_gt hp), Int.emod_lt_of_pos _ hp⟩
  refine ⟨hx2, hrange, ?_, ?_⟩
  · intro y hy0 hylt hy
    apply eq_of_modEq_of_range n y _ _ ⟨hy0, hylt⟩ hrange
    have h1 : a * y ≡ a * (swu_locals E n a b t u).x2 [ZMOD n] := hy.trans hx2.symm
    have h2 := h1.mul_left (E.inverse_mod a n)
    have h3 : ∀ z : ℤ, E.inverse_mod a n * (a * z) ≡ z [ZMOD n] := by
      intro z
      have h4 := hAinv.mul_right z
      rw [one_mul] at h4
      have h5 : E.inverse_mod a n * (a * z) = a * E.inverse_mod a n * z := by ring
      rw [h5]
      exact h4
    exact ((h3 y).symm.trans h2).trans (h3 _)
  · exact reduce_eq_emod_of_modEq n _ _
      (((cube_modEq n _).add (multiply_modEq n a _)).add (Int.ModEq.refl b))

/-- Witness for C11: the curve `y^2 = x^3 + x + 1` over the field of 5 elements
with `t = 2`, `u = 4`, where `D = 2^4 * 4^2 + 2^2 * 4` has the inverse `3` and
`x2 = 1`. -/
theorem C11_candidate2_formula_witness :
    (swu_locals (toy_collaborators 2 4) 5 1 1 2 4).x2 = 1 ∧
      (1 : Int) * (swu_locals (toy_collaborators 2 4) 5 1 1 2 4).x2 ≡
        (5 - 1) * (1 + 3) [ZMOD 5] :=
  ⟨rfl, (C11_candidate2_formula (toy_collaborators 2 4) 5 1 1 2 4 3
    (show Nat.Prime 5 by norm_num) (by decide) (ref_inverse_mod_contract 5 (by decide))
    (by decide)).1⟩

/-- C12: candidate 3.  For every `p`, `a`, `b`, `t`, `u` the value `x3` of line
104 is `g(x1)^2 * t^3 * x2 mod p`, where `g(x1) = u^3 + a * u + b mod p` is `gx1`
and `x2` is the second candidate, and `gx3` of line 106 is
`x3^3 + a * x3 + b mod p`. -/
theorem C12_candidate3_formula (E : Collaborators) (p a b t u : Int) :
    (swu_locals E p a b t u).x3 =
        ((swu_locals E p a b t u).gx1 ^ 2 * t ^ 3 * (swu_locals E p a b t u).x2) % p ∧
      (swu_locals E p a b t u).gx1 = (u ^ 3 + a * u + b) % p ∧
      (swu_locals E p a b t u).gx3 =
        ((swu_locals E p a b t u).x3 ^ 3 + a * (swu_locals E p a b t u).x3 + b) % p := by
  refine ⟨?_, ?_, ?_⟩
  · have e : (swu_locals E p a b t u).x3 =
        Modular_Reducer.reduce p (Modular_Reducer.square p (swu_locals E p a b t u).gx1 *
          Modular_Reducer.multiply p (swu_locals E p a b t u).t3
            (swu_locals E p a b t u).x2) := rfl
    rw [e]
    apply reduce_eq_emod_of_modEq
    have h3 : (swu_locals E p a b t u).t3 ≡ t ^ 3 [ZMOD p] := by
      have e3 : (swu_locals E p a b t u).t3 =
          Modular_Reducer.multiply p t (Modular_Reducer.square p t) := rfl
      rw [e3]
      have := (multiply_modEq p t (Modular_Reducer.square p t)).trans
        ((square_modEq p t).mul_left t)
      have e4 : t * (t * t) = t ^ 3 := by ring
      rwa [e4] at this
    have h1 := (square_modEq p (swu_locals E p a b t u).gx1).mul
      ((multiply_modEq p (swu_locals E p a b t u).t3 (swu_locals E p a b t u).x2).trans
        (h3.mul_right _))
    have e5 : (swu_locals E p a b t u).gx1 * (swu_locals E p a b t u).gx1 *
        (t ^ 3 * (swu_locals E p a b t u).x2) =
        (swu_locals E p a b t u).gx1 ^ 2 * t ^ 3 * (swu_locals E p a b t u).x2 := by ring
    rwa [e5] at h1
  · exact reduce_eq_emod_of_modEq p _ _
      (((cube_modEq p _).add (multiply_modEq p a _)).add (Int.ModEq.refl b))
  · exact reduce_eq_emod_of_modEq p _ _
      (((cube_modEq p _).add (multiply_modEq p a _)).add (Int.ModEq.refl b))

/-! ## Shape of `hash_to_base` -/

theorem hash_to_base_of_lengths (E : Collaborators) (group : EC_Group) (hash_fn : String)
    (input domain_sep : List Nat) (ctr k n : Nat)
    (hmac : E.hmac_output_length hash_fn = some n)
    (hext : (E.hkdf_extract hash_fn n input domain_sep []).length = n)
    (hexp : (E.hkdf_expand hash_fn (hash_to_base_L group.p_bits k)
      (E.hkdf_extract hash_fn n input domain_sep []) (hash_to_base_salt ctr) []).length =
        hash_to_base_L group.p_bits k) :
    hash_to_base E group hash_fn input domain_sep ctr k =
      ([Event.hmac_create hash_fn, Event.hkdf_extract n input domain_sep [],
        Event.hkdf_expand (hash_to_base_L group.p_bits k)
          (E.hkdf_extract hash_fn n input domain_sep []) (hash_to_base_salt ctr) []],
       Except.ok (group.mod_order (BigInt.decode
         (E.hkdf_expand hash_fn (hash_to_base_L group.p_bits k)
           (E.hkdf_extract hash_fn n input domain_sep []) (hash_to_base_salt ctr) [])))) := by
  unfold hash_to_base
  simp [hmac, hext, hexp]

theorem hash_to_base_of_extract_mismatch (E : Collaborators) (group : EC_Group)
    (hash_fn : String) (input domain_sep : List Nat) (ctr k n : Nat)
    (hmac : E.hmac_output_length hash_fn = some n)
    (hext : (E.hkdf_extract hash_fn n input domain_sep []).length ≠ n) :
    hash_to_base E group hash_fn input domain_sep ctr k =
      ([Event.hmac_create hash_fn, Event.hkdf_extract n input domain_sep []],
       Except.error Error.Internal_Error) := by
  unfold hash_to_base
  simp [hmac, hext]

theorem hash_to_base_of_expand_mismatch (E : Collaborators) (group : EC_Group)
    (hash_fn : String) (input domain_sep : List Nat) (ctr k n : Nat)
    (hmac : E.hmac_output_length hash_fn = some n)
    (hext : (E.hkdf_extract hash_fn n input domain_sep []).length = n)
    (hexp : (E.hkdf_expand hash_fn (hash_to_base_L group.p_bits k)
      (E.hkdf_extract hash_fn n input domain_sep []) (hash_to_base_salt ctr) []).length ≠
        hash_to_base_L group.p_bits k) :
    hash_to_base E group hash_fn input domain_sep ctr k =
      ([Event.hmac_create hash_fn, Event.hkdf_extract n input domain_sep [],
        Event.hkdf_expand (hash_to_base_L group.p_bits k)
          (E.hkdf_extract hash_fn n input domain_sep []) (hash_to_base_salt ctr) []],
       Except.error Error.Internal_Error) := by
  unfold hash_to_base
  simp [hmac, hext, hexp]

theorem hash_to_curve_swu_of_derived_full (E : Collaborators) (group : EC_Group)
    (hash_fn : String) (input domain_sep : List Nat) (t u : Int) (ev_t ev_u : List Event)
    (ha : group.a ≠ 0) (hb : group.b ≠ 0)
    (ht : hash_to_base E group hash_fn input domain_sep 0 128 = (ev_t, Except.ok t))
    (hu : hash_to_base E group hash_fn input domain_sep 1 128 = (ev_u, Except.ok u)) :
    hash_to_curve_swu E group hash_fn input domain_sep =
      (ev_t ++ ev_u ++ (swu_map E group t u).1, (swu_map E group t u).2) := by
  unfold hash_to_curve_swu
  rw [if_neg (by simp [ha, hb]), ht, hu]

/-- C13: derivation inputs.  When the HMAC exists and the two HKDF steps write
the requested numbers of bytes, `hash_to_base` (with the default margin 128)
returns the value that the spec describes: the reduction of the big-endian
reading of `expand(prk, info, L)` with `prk = extract(salt = domain_sep,
ikm = message)` and `info` the five bytes `0x48, 0x32, 0x43, ctr, 0x00`, and
the only collaborator calls are that extract and that expand.  On a supported
curve `hash_to_curve_swu` runs the rest of the routine on `t`, the value for
counter `0`, and `u`, the value for counter `1`, of the same message and tag. -/
theorem C13_derivation_inputs (E : Collaborators) (group : EC_Group) (hash_fn : String)
    (message domain_sep : List Nat) (n : Nat)
    (hmac : E.hmac_output_length hash_fn = some n)
    (hext : (E.hkdf_extract hash_fn n message domain_sep []).length = n)
    (hexp : ∀ ctr : Nat, (E.hkdf_expand hash_fn (hash_to_base_L group.p_bits 128)
      (E.hkdf_extract hash_fn n message domain_sep []) [0x48, 0x32, 0x43, ctr, 0x00] []).length =
        hash_to_base_L group.p_bits 128) :
    (∀ ctr : Nat, hash_to_base E group hash_fn message domain_sep ctr 128 =
      ([Event.hmac_create hash_fn, Event.hkdf_extract n message domain_sep [],
        Event.hkdf_expand (hash_to_base_L group.p_bits 128)
          (E.hkdf_extract hash_fn n message domain_sep []) [0x48, 0x32, 0x43, ctr, 0x00] []],
       Except.ok (spec_derive_field_element E group hash_fn message domain_sep ctr 128 n))) ∧
    (group.a ≠ 0 → group.b ≠ 0 →
      (hash_to_curve_swu E group hash_fn message domain_sep).2 =
        (swu_map E group
          (spec_derive_field_element E group hash_fn message domain_sep 0 128 n)
          (spec_derive_field_element E group hash_fn message domain_sep 1 128 n)).2) := by
  have h1 : ∀ ctr : Nat, hash_to_base E group hash_fn message domain_sep ctr 128 =
      ([Event.hmac_create hash_fn, Event.hkdf_extract n message domain_sep [],
        Event.hkdf_expand (hash_to_base_L group.p_bits 128)
          (E.hkdf_extract hash_fn n message domain_sep []) [0x48, 0x32, 0x43, ctr, 0x00] []],
       Except.ok (spec_derive_field_element E group hash_fn message domain_sep ctr 128 n)) :=
    fun ctr =>
      hash_to_base_of_lengths E group hash_fn message domain_sep ctr 128 n hmac hext (hexp ctr)
  refine ⟨h1, fun ha hb => ?_⟩
  rw [hash_to_curve_swu_of_derived_full E group hash_fn message domain_sep _ _ _ _ ha hb
    (h1 0) (h1 1)]

/-- Witness for C13: the toy HKDF on the curve `y^2 = x^3 + x + 1` over the field
of 5 elements; the value derived for counter `1` is `u = 4`. -/
theorem C13_derivation_inputs_witness :
    (hash_to_base (toy_collaborators 2 4) ⟨5, 1, 1, 3, 9⟩ "SHA-256" [1, 2] [3] 1 128).2 =
      Except.ok 4 :=
  congrArg Prod.snd ((C13_derivation_inputs (toy_collaborators 2 4) ⟨5, 1, 1, 3, 9⟩ "SHA-256"
    [1, 2] [3] 32 rfl rfl
    (fun _ => by simp [toy_collaborators, hash_to_base_L, SIZE_T_MOD])).1 1)

/-- C14: a KDF length mismatch is fatal.  When the extract step reports a
written length other than the hash output length, or the expand step reports a
written length other than `L`, `hash_to_base` raises the internal error of the
assertion (line 32 or line 46) and returns no field element. -/
theorem C14_kdf_length_mismatch_is_fatal (E : Collaborators) (group : EC_Group)
    (hash_fn : String) (input domain_sep : List Nat) (ctr k n : Nat)
    (hmac : E.hmac_output_length hash_fn = some n)
    (hbad : (E.hkdf_extract hash_fn n input domain_sep []).length ≠ n ∨
      (E.hkdf_expand hash_fn (hash_to_base_L group.p_bits k)
        (E.hkdf_extract hash_fn n input domain_sep []) (hash_to_base_salt ctr) []).length ≠
          hash_to_base_L group.p_bits k) :
    (hash_to_base E group hash_fn input domain_sep ctr k).2 =
        Except.error Error.Internal_Error ∧
      ∀ v : Int, (hash_to_base E group hash_fn input domain_sep ctr k).2 ≠ Except.ok v := by
  have h : (hash_to_base E group hash_fn input domain_sep ctr k).2 =
      Except.error Error.Internal_Error := by
    by_cases hext : (E.hkdf_extract hash_fn n input domain_sep []).length = n
    · rcases hbad with hbad | hbad
      · exact absurd hext hbad
      · rw [hash_to_base_of_expand_mismatch E group hash_fn input domain_sep ctr k n hmac
          hext hbad]
    · rw [hash_to_base_of_extract_mismatch E group hash_fn input domain_sep ctr k n hmac hext]
  refine ⟨h, fun v hv => ?_⟩
  rw [h] at hv
  cases hv

/-- Witness for C14: an expand step that writes 15 of the 16 requested bytes. -/
theorem C14_kdf_length_mismatch_is_fatal_witness :
    (hash_to_base short_expand_collaborators ⟨5, 1, 1, 3, 9⟩ "SHA-256" [1, 2] [3] 0 128).2 =
      Except.error Error.Internal_Error :=
  (C14_kdf_length_mismatch_is_fatal short_expand_collaborators ⟨5, 1, 1, 3, 9⟩ "SHA-256"
    [1, 2] [3] 0 128 32 rfl (Or.inr (by decide))).1

/-! ## Dependence of the routines on the collaborators -/

theorem cast_x2_n_if0 (E : Collaborators) (n : ℕ) (a b t u : ℤ) :
    ((x2_n_if0 n (swu_locals E n a b t u) : ℤ) : ZMod n) =
      (t : ZMod n) * ((t : ZMod n) * t) * ((t : ZMod n) * ((t : ZMod n) * t)) *
        (((g_of n a b u : ℤ) : ZMod n) *
          (((g_of n a b u : ℤ) : ZMod n) * ((g_of n a b u : ℤ) : ZMod n))) - 1 := by
  have e : (swu_locals E n a b t u).gx1 = g_of n a b u := rfl
  unfold x2_n_if0
  rw [cast_reduce]
  push_cast
  rw [cast_multiply, cast_swu_t6, cast_cube, e]

theorem cast_x2_d_if0 (E : Collaborators) (n : ℕ) (a b t u : ℤ) :
    ((x2_d_if0 n (swu_locals E n a b t u) : ℤ) : ZMod n) =
      ((g_of n a b u : ℤ) : ZMod n) *
        ((t : ZMod n) * ((t : ZMod n) * t) * ((t : ZMod n) * ((t : ZMod n) * t)) *
          (((g_of n a b u : ℤ) : ZMod n) * ((g_of n a b u : ℤ) : ZMod n)) -
            (t : ZMod n) * t) := by
  have e : (swu_locals E n a b t u).gx1 = g_of n a b u := rfl
  unfold x2_d_if0
  rw [cast_multiply, cast_reduce]
  push_cast
  rw [cast_multiply, cast_swu_t6, cast_square, cast_swu_t2, e]

theorem x2_d_if0_modEq (E : Collaborators) (n : ℕ) (a b t u : ℤ) :
    g_of n a b u * (t ^ 6 * g_of n a b u ^ 2 - t ^ 2) ≡
      x2_d_if0 n (swu_locals E n a b t u) [ZMOD n] := by
  apply (ZMod.intCast_eq_intCast_iff _ _ n).1
  rw [cast_x2_d_if0]
  push_cast
  ring

theorem swu_den_invertible_of_if0 (E : Collaborators) (n : ℕ) (a b t u m : ℤ)
    (hm : g_of n a b u * (t ^ 6 * g_of n a b u ^ 2 - t ^ 2) * m ≡ 1 [ZMOD n]) :
    ((swu_locals E n a b t u).d1 + (swu_locals E n a b t u).d2) *
      ((t ^ 2 * g_of n a b u - 1) * m) ≡ 1 [ZMOD n] := by
  have h1 := (ZMod.intCast_eq_intCast_iff _ _ n).2 hm
  apply (ZMod.intCast_eq_intCast_iff _ _ n).1
  rw [Int.cast_mul, cast_swu_den]
  push_cast at h1 ⊢
  linear_combination h1

/-- C16: the two forms of `x2` agree.  For a positive modulus `p` (in particular
a prime above 3), an `inverse_mod` that meets its contract and `t`, `u` for which
`g(u) * (t^6 * g(u)^2 - t^2)` is invertible modulo `p`: the value of the
disabled branch (lines 89-92), multiplied by `-b/a` (the `n_b_over_a` of line
72), is the `x2` of the enabled branch (lines 94-98). -/
theorem C16_x2_forms_agree (E : Collaborators) (p a b t u : Int) (hp : 0 < p)
    (hinv : InverseContract E.inverse_mod p)
    (hD : ∃ m : Int,
      g_of p a b u * (t ^ 6 * g_of p a b u ^ 2 - t ^ 2) * m ≡ 1 [ZMOD p]) :
    Modular_Reducer.multiply p (swu_locals E p a b t u).n_b_over_a
        (x2_if0 E p (swu_locals E p a b t u)) =
      (swu_locals E p a b t u).x2 := by
  obtain ⟨n, rfl⟩ : ∃ n : ℕ, p = (n : ℤ) := ⟨p.toNat, (Int.toNat_of_nonneg hp.le).symm⟩
  obtain ⟨m, hm⟩ := hD
  have hDd : x2_d_if0 n (swu_locals E n a b t u) *
      E.inverse_mod (x2_d_if0 n (swu_locals E n a b t u)) n ≡ 1 [ZMOD n] :=
    ((hinv _ (Int.emod_nonneg _ (ne_of_gt hp))).1
      ⟨m, ((x2_d_if0_modEq E n a b t u).symm.mul_right m).trans hm⟩).2.2
  have hDen : ((swu_locals E n a b t u).d1 + (swu_locals E n a b t u).d2) *
      E.inverse_mod ((swu_locals E n a b t u).d1 + (swu_locals E n a b t u).d2) n
        ≡ 1 [ZMOD n] :=
    ((hinv _ (swu_den_nonneg E n a b t u hp)).1
      ⟨_, swu_den_invertible_of_if0 E n a b t u m hm⟩).2.2
  have h1 := (ZMod.intCast_eq_intCast_iff _ _ n).2 hDd
  have h2 := (ZMod.intCast_eq_intCast_iff _ _ n).2 hDen
  rw [Int.cast_mul, cast_x2_d_if0, Int.cast_one] at h1
  rw [Int.cast_mul, cast_swu_den, Int.cast_one] at h2
  have e : (swu_locals E n a b t u).x2 =
      Modular_Reducer.reduce n
        ((1 + E.inverse_mod ((swu_locals E n a b t u).d1 + (swu_locals E n a b t u).d2) n) *
          (swu_locals E n a b t u).n_b_over_a) := rfl
  rw [e]
  show Modular_Reducer.reduce n _ = Modular_Reducer.reduce n _
  apply reduce_eq_of_cast_eq
  rw [cast_reduce, cast_reduce]
  unfold x2_if0
  push_cast
  rw [cast_multiply, cast_x2_n_if0]
  generalize ((E.inverse_mod ((swu_locals E n a b t u).d1 + (swu_locals E n a b t u).d2) n : ℤ) :
    ZMod n) = ID at *
  generalize ((E.inverse_mod (x2_d_if0 n (swu_locals E n a b t u)) n : ℤ) : ZMod n) = IDd at *
  generalize (((swu_locals E n a b t u).n_b_over_a : ℤ) : ZMod n) = NBA at *
  generalize ((g_of n a b u : ℤ) : ZMod n) = G at *
  linear_combination (NBA * (1 + ID)) * h1 +
    (-NBA * ((t : ZMod n) * t * G - 1) * IDd) * h2

/-- Witness for C16: the curve `y^2 = x^3 + x + 1` over the field of 7 elements
with `t = 2`, `u = 1`, where `g(u) * (t^6 * g(u)^2 - t^2) = 1716 ≡ 1`; the
disabled branch gives `5`, `n_b_over_a` is `6`, and `6 * 5 mod 7 = 2` is the
`x2` of the enabled branch. -/
theorem C16_x2_forms_agree_witness :
    x2_if0 (toy_collaborators 2 1) 7 (swu_locals (toy_collaborators 2 1) 7 1 1 2 1) = 5 ∧
      (swu_locals (toy_collaborators 2 1) 7 1 1 2 1).x2 = 2 ∧
      Modular_Reducer.multiply 7 (swu_locals (toy_collaborators 2 1) 7 1 1 2 1).n_b_over_a
          (x2_if0 (toy_collaborators 2 1) 7 (swu_locals (toy_collaborators 2 1) 7 1 1 2 1)) =
        (swu_locals (toy_collaborators 2 1) 7 1 1 2 1).x2 :=
  ⟨rfl, rfl, C16_x2_forms_agree (toy_collaborators 2 1) 7 1 1 2 1 (by decide)
    (ref_inverse_mod_contract 7 (by decide)) ⟨1, by decide⟩⟩

theorem ressol_pos_lt (ressol : Int → Int → Int) (p v : Int)
    (hres : RessolContract ressol p) (h0 : 0 ≤ v) (hlt : v < p)
    (hpos : 0 < ressol v p) : ressol v p < p := by
  by_cases hsq : ∃ r : Int, r * r ≡ v [ZMOD p]
  · exact ((hres v h0 hlt).1 hsq).2.1
  · have := (hres v h0 hlt).2 hsq
    omega

/-- C17: the returned `y` is never zero.  For a positive modulus `p` and a
`ressol` that meets its contract, a point `(rx, ry)` returned by
`hash_to_curve_swu` has `ry = ressol(g(rx), p)`, the square root of the selected
candidate, with `1 <= ry < p`: a candidate whose square-root result is `0` or
`-1` is not selected. -/
theorem C17_y_is_never_zero (E : Collaborators) (group : EC_Group) (hash_fn : String)
    (input domain_sep : List Nat) (rx ry : Int)
    (hp : 0 < group.p)
    (hres : RessolContract E.ressol group.p)
    (hret : (hash_to_curve_swu E group hash_fn input domain_sep).2 =
      Except.ok (group.point rx ry)) :
    ry = E.ressol (g_of group.p group.a group.b rx) group.p ∧
      ry * ry ≡ g_of group.p group.a group.b rx [ZMOD group.p] ∧
      1 ≤ ry ∧ ry < group.p ∧ ry ≠ 0 ∧ ry ≠ -1 := by
  obtain ⟨_, _, t, u, _, _, hsel⟩ :=
    hash_to_curve_swu_ok E group hash_fn input domain_sep _ hret
  have key : ∀ x : Int, 0 < E.ressol (g_of group.p group.a group.b x) group.p →
      E.ressol (g_of group.p group.a group.b x) group.p < group.p := fun x hx =>
    ressol_pos_lt E.ressol group.p _ hres
      (g_of_nonneg group.p group.a group.b x hp) (g_of_lt group.p group.a group.b x hp) hx
  have root : ∀ x : Int, 0 < E.ressol (g_of group.p group.a group.b x) group.p →
      E.ressol (g_of group.p group.a group.b x) group.p *
        E.ressol (g_of group.p group.a group.b x) group.p ≡
          g_of group.p group.a group.b x [ZMOD group.p] := fun x hx =>
    ressol_pos_is_root E.ressol group.p _ hres
      (g_of_nonneg group.p group.a group.b x hp) (g_of_lt group.p group.a group.b x hp) hx
  rcases select_point_ok group u _ _ _ _ _ _ hsel with ⟨h1, hP⟩ | ⟨_, h2, hP⟩ | ⟨_, _, h3, hP⟩
  · obtain ⟨hx, hy⟩ := PointGFp.mk.inj hP
    have hlt := key u h1
    have hroot := root u h1
    rw [hx, hy]
    exact ⟨rfl, hroot, by omega, hlt, by omega, by omega⟩
  · obtain ⟨hx, hy⟩ := PointGFp.mk.inj hP
    have hlt := key _ h2
    have hroot := root _ h2
    rw [hx, hy]
    exact ⟨rfl, hroot, by omega, hlt, by omega, by omega⟩
  · obtain ⟨hx, hy⟩ := PointGFp.mk.inj hP
    have hlt := key _ h3
    have hroot := root _ h3
    rw [hx, hy]
    exact ⟨rfl, hroot, by omega, hlt, by omega, by omega⟩

/-- Witness for C17: on the curve `y^2 = x^3 + x + 1` over the field of 5 elements
with `t = 2`, `u = 4` the routine returns `(4, 2)`, and `1 <= 2 < 5`. -/
theorem C17_y_is_never_zero_witness :
    (hash_to_curve_swu (toy_collaborators 2 4) ⟨5, 1, 1, 3, 9⟩ "SHA-256" [1, 2] [3]).2 =
        Except.ok (EC_Group.point ⟨5, 1, 1, 3, 9⟩ 4 2) ∧
      (1 : Int) ≤ 2 ∧ (2 : Int) < 5 :=
  ⟨rfl, (C17_y_is_never_zero (toy_collaborators 2 4) ⟨5, 1, 1, 3, 9⟩ "SHA-256" [1, 2] [3] 4 2
    (by decide) ref_ressol_contract_five rfl).2.2.1,
   (C17_y_is_never_zero (toy_collaborators 2 4) ⟨5, 1, 1, 3, 9⟩ "SHA-256" [1, 2] [3] 4 2
    (by decide) ref_ressol_contract_five rfl).2.2.2.1⟩

theorem zero_not_invertible (p : Int) (hp : 1 < p) :
    ¬ ∃ m : Int, 0 * m ≡ 1 [ZMOD p] := by
  rintro ⟨m, hm⟩
  have h1 : 0 * m % p = 1 % p := hm
  rw [zero_mul, Int.zero_emod, Int.emod_eq_of_lt (by omega) hp] at h1
  omega

/-- C18: degenerate denominator.  For a prime `p`, a coefficient `a` in `[1, p)`,
an `inverse_mod` that meets its contract (so that it returns `0` for the
non-invertible argument `0`) and `t ≡ 0 (mod p)`: the denominator `d1 + d2` is
`0`, `x2 = (p - b) * inverse_mod(a, p) mod p` with `inverse_mod(a, p)` the
inverse of `a`, `x3 = 0`, `gx3 = b mod p` and `check1 = 0`. -/
theorem C18_degenerate_denominator (E : Collaborators) (p a b t u : Int)
    (hprime : Nat.Prime p.toNat) (ha : 1 ≤ a ∧ a < p)
    (hinv : InverseContract E.inverse_mod p)
    (ht : t ≡ 0 [ZMOD p]) :
    (swu_locals E p a b t u).d1 + (swu_locals E p a b t u).d2 = 0 ∧
      (swu_locals E p a b t u).x2 = ((p - b) * E.inverse_mod a p) % p ∧
      a * E.inverse_mod a p ≡ 1 [ZMOD p] ∧
      (swu_locals E p a b t u).x3 = 0 ∧
      (swu_locals E p a b t u).gx3 = b % p ∧
      (swu_locals E p a b t u).check1 = 0 := by
  have hp : 1 < p := by
    have := hprime.two_le
    omega
  have hinv0 : E.inverse_mod 0 p = 0 := (hinv 0 (le_refl 0)).2 (zero_not_invertible p hp)
  have ht2 : t * t % p = 0 := by
    have h1 : t * t ≡ 0 * t [ZMOD p] := ht.mul_right t
    have h2 : t * t % p = 0 * t % p := h1
    rw [zero_mul, Int.zero_emod] at h2
    exact h2
  have hainv : a * E.inverse_mod a p ≡ 1 [ZMOD p] :=
    ((hinv a (by omega)).1 (invertible_of_lt_prime p a hprime ha)).2.2
  refine ⟨?_, ?_, hainv, ?_, ?_, ?_⟩ <;>
    simp [swu_locals, ht2, hinv0, Modular_Reducer.multiply, Modular_Reducer.multiply3,
      Modular_Reducer.reduce, g_of, Modular_Reducer.cube, Modular_Reducer.square]

/-- Witness for C18: the curve `y^2 = x^3 + x + 1` over the field of 5 elements
with `t = 5`, `u = 2`: `x2 = 4`. -/
theorem C18_degenerate_denominator_witness :
    (swu_locals (toy_collaborators 5 2) 5 1 1 5 2).x2 = 4 ∧
      (swu_locals (toy_collaborators 5 2) 5 1 1 5 2).x3 = 0 :=
  ⟨rfl, (C18_degenerate_denominator (toy_collaborators 5 2) 5 1 1 5 2
    (show Nat.Prime 5 by norm_num) (by decide) (ref_inverse_mod_contract 5 (by decide))
    (by decide)).2.2.2.1⟩

end Botan
